import Mathlib

/-!
# Verification of the Uno rules engine (`server/core/uno.py`)

Shallow embedding of the core state machine: `Card`, `Deck`, and the `Game`
class with its `draw` and `play` operations, the construction path
(dealing and `_start_discard_with_valid_card`), and the helpers
(`transfer_played_cards`, `_draw_n`, `_next_index`, `_advance_turn`,
`_can_play_card`, `_calculate_score`).

Modelling conventions:
* Python's ambient randomness (`random.shuffle`, `random.choice`) is made
  explicit: every operation that shuffles takes a `shuffle` function
  parameter, and the construction takes the already-shuffled deck order and
  the randomly chosen start color as parameters.  Theorems that need
  shuffling to be a real permutation carry the hypothesis
  `∀ l, (shuffle l).Perm l`.
* A Python call that raises an exception (`IndexError` from `list.pop` /
  indexing, `ValueError` from `.index`) is modelled as `none`; a call that
  runs to completion returns `some` of the post state together with the
  outcome reported through the notification sink / `on_game_over` callback.
* `Card.id` is the string `f'{value}-{color}'`, which is an injective
  function of the `(value, color)` pair, so a card id is modelled as the
  card value itself; likewise `Player.id` is injective in the player, and
  the `players` set of the Python class contains exactly the members of
  `players_list` (a Python `set` deduplicates by id).  Hands are therefore
  seat-indexed: `hands[i]` is the hand of `players_list[i]`.
* `Game.play`'s `on_game_over(GameOverReason.WON, player)` callback is
  invoked at most once, immediately before an early `return`; the
  invocation is modelled by the `PlayRes.gameOver` result constructor
  carrying the reason, the winner and the score reported in the success
  notification.
-/

/-- The five card colors of `Deck.COLORS` plus `'black'`. -/
inductive Color where
  | red | blue | green | yellow | black
deriving DecidableEq

/-- Card face values: `'0'..'9'` (as `num n`), `'draw-two'`, `'reverse'`,
`'skip'`, `'draw-four'`, `'wild'`. -/
inductive Value where
  | num (n : Nat)
  | drawTwo
  | reverse
  | skip
  | drawFour
  | wild
deriving DecidableEq

/-- `Card(color, value)`; identity is the pair `(value, color)`. -/
structure Card where
  color : Color
  value : Value
deriving DecidableEq

/-- `Card.is_black`. -/
def Card.is_black (c : Card) : Bool := c.color = Color.black

/-- `Card.is_draw_four`. -/
def Card.is_draw_four (c : Card) : Bool := c.value = Value.drawFour

/-- `Card.is_wild`. -/
def Card.is_wild (c : Card) : Bool := c.value = Value.wild

/-- `Deck.COLORS`. -/
def Deck.COLORS : List Color := [Color.red, Color.blue, Color.green, Color.yellow]

/-- `Deck.NUMBER_CARDS`: digits 0-9 once, then 1-9 once more. -/
def Deck.NUMBER_CARDS : List Value :=
  ((List.range 10) ++ (List.range 9).map (· + 1)).map Value.num

/-- `Deck.COLOR_CARDS = NUMBER_CARDS + DRAW_TWO_CARDS + REVERSE_CARDS + SKIP_CARDS`. -/
def Deck.COLOR_CARDS : List Value :=
  Deck.NUMBER_CARDS ++
    [Value.drawTwo, Value.drawTwo, Value.reverse, Value.reverse, Value.skip, Value.skip]

/-- The 108-card deck built by `Deck.__init__` before shuffling:
color cards for each color in order, then 4 draw-fours and 4 wilds. -/
def standardDeck : List Card :=
  (Deck.COLORS.flatMap (fun color => Deck.COLOR_CARDS.map (fun v => ⟨color, v⟩))) ++
    ((List.replicate 4 Value.drawFour ++ List.replicate 4 Value.wild).map
      (fun v => ⟨Color.black, v⟩))

/-- Player ids (`Player.id`, a string derived injectively from the name). -/
abbrev PlayerId := String

/-- `GameOverReason`. -/
inductive GameOverReason where
  | WON | ERROR | INSUFFICIENT_PLAYERS
deriving DecidableEq

/-- The mutable state of a `Game` instance.  `hands` is seat-indexed in
parallel with `players_list` (see the header comment). -/
structure GameState where
  players_list : List PlayerId
  hands : List (List Card)
  current_index : Nat
  direction : Int
  current_color : Option Color
  pending_draw_count : Nat
  pending_draw_for_index : Option Nat
  remaining_cards : List Card
  game_stack : List Card
deriving DecidableEq

/-- Replace the `i`-th entry of a list by `f` applied to it (in-place list
mutation of Python, e.g. appending to `hands[player]`). -/
def modifyIdx : List α → Nat → (α → α) → List α
  | [], _, _ => []
  | a :: as, 0, f => f a :: as
  | a :: as, n + 1, f => a :: modifyIdx as n f

/-- Remove the first occurrence of `x` (Python
`player_cards.pop(find_object_idx(player_cards, card.id))`). -/
def eraseFirst : List Card → Card → List Card
  | [], _ => []
  | c :: cs, x => if c = x then cs else c :: eraseFirst cs x

/-- `Game._next_index(steps)`: `(current_index + steps * direction) % n`
with Python's floor modulo (equal to Lean's `Int.emod` for a positive
modulus). -/
def next_index (g : GameState) (steps : Int) : Nat :=
  (((g.current_index : Int) + steps * g.direction) % (g.players_list.length : Int)).toNat

/-- `Game._advance_turn(steps)`. -/
def advance_turn (g : GameState) (steps : Int) : GameState :=
  { g with current_index := next_index g steps }

/-- `Game._can_play_card(card, top_card)`. -/
def can_play_card (current_color : Option Color) (card top_card : Card) : Bool :=
  match current_color with
  | some cc =>
    if card.is_black then true
    else decide (card.color = cc) || decide (card.value = top_card.value)
  | none =>
    if top_card.is_black then true
    else card.is_black || decide (card.color = top_card.color)
      || decide (card.value = top_card.value)

/-- The draw-four restriction test in `Game.play`:
`current_color is not None and any(c.color == current_color for c in player_cards if not c.is_black())`. -/
def hasCurrentColorNonBlack (current_color : Option Color) (hand : List Card) : Bool :=
  match current_color with
  | none => false
  | some cc => hand.any (fun c => !c.is_black && decide (c.color = cc))

/-- `chosen_color in Deck.COLORS` (on the representable inputs: `None` or a
color name; any other string is rejected just like `None`). -/
def validChosenColor : Option Color → Bool
  | none => false
  | some c => decide (c ∈ Deck.COLORS)

/-- Per-card contribution in `Game._calculate_score`: digits count their
value, draw-two/reverse/skip count 20, then black cards count 50. -/
def cardPoints (c : Card) : Nat :=
  match c.value with
  | Value.num n => n
  | Value.drawTwo => 20
  | Value.reverse => 20
  | Value.skip => 20
  | _ => if c.is_black then 50 else 0

/-- `Game._calculate_score(exclude_player)`: sum the hand values of every
seat other than `exclude` in seating order. -/
def calculate_score (g : GameState) (exclude : Nat) : Nat :=
  ((List.range g.players_list.length).filter (fun j => decide (j ≠ exclude))).foldl
    (fun t j => t + ((g.hands.getD j []).map cardPoints).sum) 0

/-- `Game.transfer_played_cards`: recycle the discard stack minus its top
card (shuffled) into the draw pile; `none` when the stack is empty
(`pop` from an empty list raises). -/
def transfer_played_cards (shuffle : List Card → List Card) (g : GameState) :
    Option GameState :=
  match g.game_stack.getLast? with
  | none => none
  | some top =>
    some { g with remaining_cards := shuffle g.game_stack.dropLast,
                  game_stack := [top] }

/-- `Game._draw_n(player, n)` for the seat `i`: draw up to `n` cards into
hand `i`, recycling when the pile empties and stopping silently when no
card can be produced. -/
def draw_n (shuffle : List Card → List Card) (i : Nat) : Nat → GameState → Option GameState
  | 0, g => some g
  | n + 1, g =>
    match (if g.remaining_cards = [] then transfer_played_cards shuffle g else some g) with
    | none => none
    | some g1 =>
      match g1.remaining_cards.getLast? with
      | none => some g1
      | some c =>
        draw_n shuffle i n
          { g1 with remaining_cards := g1.remaining_cards.dropLast,
                    hands := modifyIdx g1.hands i (fun h => h ++ [c]) }

/-- Outcome of a `draw` call as reported through the notification sink. -/
inductive Res where
  | success
  | warned (msg : String)
  | rejected (msg : String)
deriving DecidableEq

/-- Outcome of a `play` call: `gameOver` records the single
`on_game_over(reason, player)` invocation together with the score in the
success notification. -/
inductive PlayRes where
  | success
  | gameOver (reason : GameOverReason) (winner : PlayerId) (score : Nat)
  | rejected (msg : String)
deriving DecidableEq

def notYourTurnMsg : String := "not your turn"

def deckEmptyMsg : String := "deck is empty!"

def mustDrawMsg (n : Nat) : String :=
  "must draw " ++ toString n ++ " card(s) before playing"

def cannotPlayMsg : String := "cannot play this card"

def drawFourBlockedMsg : String :=
  "cannot play draw four when you have a card of the current color"

def chooseColorMsg : String := "please choose a color to play a wild card"

/-- The state after `new_card = remaining_cards.pop(); player_cards.append(new_card)`
in `Game.draw` (the fields later read by `draw` — pending state, stack,
color, index — are untouched by this mutation, so `draw` below reads them
off the pre-pop state, which is the same thing). -/
def drawnState (g1 : GameState) (new_card : Card) : GameState :=
  { g1 with remaining_cards := g1.remaining_cards.dropLast,
            hands := modifyIdx g1.hands g1.current_index (fun h => h ++ [new_card]) }

/-- `Game.draw(player_id)`. -/
def draw (shuffle : List Card → List Card) (g : GameState) (player_id : PlayerId) :
    Option (GameState × Res) :=
  if g.players_list.length < 2 then none
  else
    match g.players_list.get? g.current_index with
    | none => none
    | some current_player =>
      if player_id ≠ current_player then some (g, Res.rejected notYourTurnMsg)
      else
        match (if g.remaining_cards = [] then transfer_played_cards shuffle g else some g) with
        | none => none
        | some g1 =>
          match g1.remaining_cards.getLast? with
          | none => some (g1, Res.warned deckEmptyMsg)
          | some new_card =>
            if 0 < g1.pending_draw_count ∧
                g1.pending_draw_for_index = some g1.current_index then
              if g1.pending_draw_count - 1 = 0 then
                some (advance_turn
                  { (drawnState g1 new_card) with
                    pending_draw_count := 0, pending_draw_for_index := none } 1,
                  Res.success)
              else
                some ({ (drawnState g1 new_card) with
                    pending_draw_count := g1.pending_draw_count - 1 },
                  Res.success)
            else
              match g1.game_stack.getLast? with
              | none => none
              | some top_card =>
                if can_play_card g1.current_color new_card top_card then
                  some (drawnState g1 new_card, Res.success)
                else
                  some (advance_turn (drawnState g1 new_card) 1, Res.success)

/-- The action-effect selection at the end of `Game.play`: the state update
and the number of steps passed to `_advance_turn`. -/
def applyActionEffect (g : GameState) (card : Card) : GameState × Int :=
  if card.value = Value.skip then (g, 2)
  else if card.value = Value.reverse then
    if g.players_list.length = 2 then (g, 2)
    else ({ g with direction := -g.direction }, 1)
  else if card.value = Value.drawTwo then
    ({ g with pending_draw_count := 2,
              pending_draw_for_index := some (next_index g 1) }, 1)
  else if card.is_draw_four then
    ({ g with pending_draw_count := 4,
              pending_draw_for_index := some (next_index g 1) }, 1)
  else (g, 1)

/-- The state right after `player_cards.pop(idx); game_stack.append(card)`
in `Game.play` (the commit point, before the `chosen_color` validation). -/
def playCommitState (g : GameState) (card : Card) : GameState :=
  { g with hands := modifyIdx g.hands g.current_index
             (fun _ => eraseFirst (g.hands.getD g.current_index []) card),
           game_stack := g.game_stack ++ [card] }

/-- The state after the `current_color` update in `Game.play` (black cards
take the validated `chosen_color`, colored cards their own color). -/
def playColorState (g : GameState) (card : Card) (chosen_color : Option Color) : GameState :=
  if card.is_black then { playCommitState g card with current_color := chosen_color }
  else { playCommitState g card with current_color := some card.color }

/-- The tail of `Game.play` from the commit point on (`# Remove and place
on discard`): remove the card from the hand, append it to the stack, then
the color update (note the source validates `chosen_color` only *after*
the removal), the UNO penalty, the win check and the action effects. -/
def playCommit (shuffle : List Card → List Card) (g : GameState) (player_id : PlayerId)
    (card : Card) (chosen_color : Option Color) (uno_called : Bool) :
    Option (GameState × PlayRes) :=
  if card.is_black = true ∧ validChosenColor chosen_color = false then
    some (playCommitState g card, PlayRes.rejected chooseColorMsg)
  else
    match (if (eraseFirst (g.hands.getD g.current_index []) card).length = 1 ∧
              uno_called = false
           then draw_n shuffle g.current_index 2 (playColorState g card chosen_color)
           else some (playColorState g card chosen_color)) with
    | none => none
    | some g3 =>
      if (g3.hands.getD g3.current_index []).length = 0 then
        some (g3, PlayRes.gameOver GameOverReason.WON player_id
          (calculate_score g3 g3.current_index))
      else
        some (advance_turn (applyActionEffect g3 card).1 (applyActionEffect g3 card).2,
          PlayRes.success)

/-- `Game.play(player_id, card_id, on_game_over, chosen_color, uno_called)`.
The turn gate, the pending-draw gate, the card lookup in the hand
(a missing card raises `ValueError`, i.e. `none`), the legality check and
the draw-four restriction, followed by `playCommit`. -/
def play (shuffle : List Card → List Card) (g : GameState) (player_id : PlayerId)
    (card : Card) (chosen_color : Option Color) (uno_called : Bool) :
    Option (GameState × PlayRes) :=
  if g.players_list.length < 2 then none
  else
    match g.players_list.get? g.current_index with
    | none => none
    | some current_player =>
      if player_id ≠ current_player then some (g, PlayRes.rejected notYourTurnMsg)
      else if 0 < g.pending_draw_count ∧
          g.pending_draw_for_index = some g.current_index then
        some (g, PlayRes.rejected (mustDrawMsg g.pending_draw_count))
      else if card ∈ g.hands.getD g.current_index [] then
        match g.game_stack.getLast? with
        | none => none
        | some top_card =>
          if can_play_card g.current_color card top_card = false then
            some (g, PlayRes.rejected cannotPlayMsg)
          else if card.is_draw_four = true ∧
              hasCurrentColorNonBlack g.current_color (g.hands.getD g.current_index [])
                = true then
            some (g, PlayRes.rejected drawFourBlockedMsg)
          else
            playCommit shuffle g player_id card chosen_color uno_called
      else none

/-- One round of the round-robin deal in `Game.__init__`: give one card to
each seat in order until the cards run out. -/
def dealRound : List Card → List (List Card) → List Card × List (List Card)
  | cards, [] => (cards, [])
  | [], h :: hs => ([], h :: hs)
  | c :: cs, h :: hs =>
    ((dealRound cs hs).1, (h ++ [c]) :: (dealRound cs hs).2)

/-- The full `while i < len(dealt)` deal loop; `rounds` bounds the number
of rounds (`hand_size` rounds always suffice for `hand_size` cards each). -/
def dealLoop : Nat → List Card → List (List Card) → List (List Card)
  | 0, _, hands => hands
  | _ + 1, [], hands => hands
  | rounds + 1, c :: cs, hands =>
    dealLoop rounds (dealRound (c :: cs) hands).1 (dealRound (c :: cs) hands).2

/-- The retry loop of `Game._start_discard_with_valid_card` restricted to
its effect on the draw pile.  At the only call site the discard stack is
empty, so the `transfer_played_cards` branch always raises (`none`): the
loop pops from the end of the pile, reinserts a draw-four at the front and
reshuffles, and otherwise returns the found card and the rest of the pile.
`fuel` bounds the retries (the loop is unbounded in the source). -/
def findStartCard (shuffle : List Card → List Card) :
    Nat → List Card → Option (Card × List Card)
  | 0, _ => none
  | fuel + 1, rem =>
    match rem.getLast? with
    | none => none
    | some c =>
      if c.is_draw_four then
        findStartCard shuffle fuel (shuffle (c :: rem.dropLast))
      else some (c, rem.dropLast)

/-- `Game._start_discard_with_valid_card` at its call site in
`Game.__init__` (empty discard stack): find a non-draw-four start card,
place it, set `current_color` (the random choice for a black card is the
`choose_color` parameter), and apply the start effects.
`startPlacedState` is the state right after the found card is appended to
the stack and the color set. -/
def startPlacedState (g : GameState) (choose_color : Color) (c : Card)
    (rem : List Card) : GameState :=
  { g with remaining_cards := rem,
           game_stack := g.game_stack ++ [c],
           current_color := some (if c.is_black then choose_color else c.color) }

def start_discard (shuffle : List Card → List Card) (choose_color : Color)
    (fuel : Nat) (g : GameState) : Option GameState :=
  match findStartCard shuffle fuel g.remaining_cards with
  | none => none
  | some (c, rem) =>
    if c.value = Value.skip then
      some (advance_turn (startPlacedState g choose_color c rem) 2)
    else if c.value = Value.reverse then
      if (startPlacedState g choose_color c rem).players_list.length = 2 then
        some (advance_turn (startPlacedState g choose_color c rem) 2)
      else some { (startPlacedState g choose_color c rem) with
                  direction := -(startPlacedState g choose_color c rem).direction }
    else if c.value = Value.drawTwo then
      some (advance_turn
        { (startPlacedState g choose_color c rem) with
          pending_draw_count := 2,
          pending_draw_for_index :=
            some (next_index (startPlacedState g choose_color c rem) 1) } 1)
    else some (startPlacedState g choose_color c rem)

/-- `Game.__init__(room, players, hand_size)`: `deckOrder` is the deck
after `Deck.shuffle`, `players` is `players_list` (the id-sorted listing
of the player set), `choose_color` the random color drawn for a black
start card, `fuel` the retry bound for the start-discard loop.  `none`
models the `validate_players` exception and any exception escaping the
construction.  `initialState` is the state after dealing, before the
start-discard step. -/
def initialState (deckOrder : List Card) (players : List PlayerId)
    (hand_size : Nat) : GameState :=
  { players_list := players,
    hands := dealLoop hand_size (deckOrder.take (players.length * hand_size))
      (List.replicate players.length []),
    current_index := 0,
    direction := 1,
    current_color := none,
    pending_draw_count := 0,
    pending_draw_for_index := none,
    remaining_cards := deckOrder.drop (players.length * hand_size),
    game_stack := [] }

def mkGame (deckOrder : List Card) (players : List PlayerId) (hand_size : Nat)
    (choose_color : Color) (shuffle : List Card → List Card) (fuel : Nat) :
    Option GameState :=
  if players.length < 2 then none
  else start_discard shuffle choose_color fuel (initialState deckOrder players hand_size)

/-- `|draw pile| + |discard stack| + Σ|hands|`. -/
def totalCards (g : GameState) : Nat :=
  g.remaining_cards.length + g.game_stack.length + (g.hands.map List.length).sum

/-- States reachable from a successful construction through `draw` and
`play` calls, with each call's shuffling being a genuine permutation. -/
inductive Reachable : GameState → Prop where
  | init (deckOrder : List Card) (players : List PlayerId) (hand_size : Nat)
      (choose_color : Color) (shuffle : List Card → List Card) (fuel : Nat)
      (g : GameState)
      (hperm : deckOrder.Perm standardDeck)
      (hshuf : ∀ l, (shuffle l).Perm l)
      (hnd : players.Nodup)
      (h : mkGame deckOrder players hand_size choose_color shuffle fuel = some g) :
      Reachable g
  | drawStep (shuffle : List Card → List Card) (g : GameState) (player_id : PlayerId)
      (g' : GameState) (r : Res)
      (hshuf : ∀ l, (shuffle l).Perm l)
      (hg : Reachable g)
      (h : draw shuffle g player_id = some (g', r)) :
      Reachable g'
  | playStep (shuffle : List Card → List Card) (g : GameState) (player_id : PlayerId)
      (card : Card) (chosen_color : Option Color) (uno_called : Bool)
      (g' : GameState) (r : PlayRes)
      (hshuf : ∀ l, (shuffle l).Perm l)
      (hg : Reachable g)
      (h : play shuffle g player_id card chosen_color uno_called = some (g', r)) :
      Reachable g'

/-! ## List helper lemmas -/

lemma length_modifyIdx (l : List α) (i : Nat) (f : α → α) :
    (modifyIdx l i f).length = l.length := by
  induction l generalizing i with
  | nil => rfl
  | cons a as ih =>
    cases i with
    | zero => rfl
    | succ n => simp [modifyIdx, ih]

lemma getD_modifyIdx_self (l : List α) (i : Nat) (f : α → α) (d : α) (hi : i < l.length) :
    (modifyIdx l i f).getD i d = f (l.getD i d) := by
  induction l generalizing i with
  | nil => simp at hi
  | cons a as ih =>
    cases i with
    | zero => rfl
    | succ n =>
      simp only [modifyIdx, List.getD_cons_succ]
      exact ih n (by simpa using hi)

lemma getD_modifyIdx_ne (l : List α) (i j : Nat) (f : α → α) (d : α) (hij : j ≠ i) :
    (modifyIdx l i f).getD j d = l.getD j d := by
  induction l generalizing i j with
  | nil => rfl
  | cons a as ih =>
    cases i with
    | zero =>
      cases j with
      | zero => exact absurd rfl hij
      | succ m => rfl
    | succ n =>
      cases j with
      | zero => rfl
      | succ m =>
        simp only [modifyIdx, List.getD_cons_succ]
        exact ih n m (fun h => hij (by omega))

lemma sum_map_length_modifyIdx (l : List (List Card)) (i : Nat) (f : List Card → List Card)
    (hi : i < l.length) :
    ((modifyIdx l i f).map List.length).sum + (l.getD i []).length
      = (l.map List.length).sum + (f (l.getD i [])).length := by
  induction l generalizing i with
  | nil => simp at hi
  | cons a as ih =>
    cases i with
    | zero => simp [modifyIdx]; omega
    | succ n =>
      simp only [modifyIdx, List.map_cons, List.sum_cons, List.getD_cons_succ]
      have := ih n (by simpa using hi)
      omega

lemma length_eraseFirst_of_mem {l : List Card} {x : Card} (h : x ∈ l) :
    (eraseFirst l x).length + 1 = l.length := by
  induction l with
  | nil => simp at h
  | cons a as ih =>
    by_cases hax : a = x
    · simp [eraseFirst, hax]
    · have hmem : x ∈ as := by
        rcases List.mem_cons.mp h with h1 | h1
        · exact absurd h1.symm hax
        · exact h1
      simp [eraseFirst, hax, ih hmem]

lemma getD_eq_default_of_le (l : List α) (d : α) (i : Nat) (h : l.length ≤ i) :
    l.getD i d = d := by
  simp [List.getD_eq_getElem?_getD, List.getElem?_eq_none h]

lemma lt_length_of_getD_ne (l : List (List Card)) (i : Nat)
    (h : l.getD i [] ≠ []) : i < l.length := by
  by_contra hlt
  exact h (getD_eq_default_of_le l [] i (by omega))


/-! ## Turn arithmetic lemmas -/

lemma next_index_lt (g : GameState) (steps : Int) (h : 0 < g.players_list.length) :
    next_index g steps < g.players_list.length := by
  unfold next_index
  have hn : (0:Int) < (g.players_list.length : Int) := by exact_mod_cast h
  have h1 := Int.emod_nonneg ((g.current_index : Int) + steps * g.direction)
    (b := (g.players_list.length : Int)) (by omega)
  have h2 := Int.emod_lt_of_pos ((g.current_index : Int) + steps * g.direction) hn
  omega

lemma next_index_two_of_two (g : GameState) (h2 : g.players_list.length = 2)
    (hc : g.current_index < 2) : next_index g 2 = g.current_index := by
  unfold next_index
  rw [h2]
  have h3 : ((2:Nat) : Int) = 2 := rfl
  rw [h3]
  omega

lemma next_index_one_of_zero (g : GameState) (h0 : g.current_index = 0)
    (hd : g.direction = 1) (hn : 2 ≤ g.players_list.length) : next_index g 1 = 1 := by
  have h1 : (((g.current_index:Int) + 1 * g.direction) % (g.players_list.length : Int)) = 1 := by
    rw [h0, hd]
    norm_num
    exact Int.emod_eq_of_lt (by omega) (by exact_mod_cast hn)
  unfold next_index
  rw [h1]
  rfl

/-! ## `transfer_played_cards` lemmas -/

lemma transfer_eq {shuffle : List Card → List Card} {g g' : GameState}
    (h : transfer_played_cards shuffle g = some g') :
    ∃ top, g.game_stack.getLast? = some top ∧
      g' = { g with remaining_cards := shuffle g.game_stack.dropLast,
                    game_stack := [top] } := by
  unfold transfer_played_cards at h
  match htop : g.game_stack.getLast? with
  | none => rw [htop] at h; exact absurd h (by simp)
  | some top =>
    rw [htop] at h
    exact ⟨top, rfl, by injection h with h1; exact h1.symm⟩

lemma transfer_total {shuffle : List Card → List Card} {g g' : GameState}
    (hshuf : ∀ l, (shuffle l).Perm l)
    (h : transfer_played_cards shuffle g = some g')
    (hre : g.remaining_cards = []) : totalCards g' = totalCards g := by
  obtain ⟨top, htop, heq⟩ := transfer_eq h
  subst heq
  have hne : g.game_stack ≠ [] := by
    intro hnil; rw [hnil] at htop; simp at htop
  have hlen : (shuffle g.game_stack.dropLast).length = g.game_stack.length - 1 := by
    rw [(hshuf g.game_stack.dropLast).length_eq, List.length_dropLast]
  have hpos : 0 < g.game_stack.length := List.length_pos.mpr hne
  simp only [totalCards, hre]
  simp [hlen]
  omega

/-! ## `_draw_n` lemmas -/

lemma draw_n_const {shuffle : List Card → List Card} {i : Nat} :
    ∀ {n : Nat} {g g' : GameState}, draw_n shuffle i n g = some g' →
      g'.players_list = g.players_list ∧ g'.current_index = g.current_index ∧
      g'.direction = g.direction ∧ g'.pending_draw_count = g.pending_draw_count ∧
      g'.pending_draw_for_index = g.pending_draw_for_index ∧
      g'.current_color = g.current_color ∧ g'.hands.length = g.hands.length := by
  intro n
  induction n with
  | zero =>
    intro g g' h
    unfold draw_n at h
    injection h with h; subst h
    exact ⟨rfl, rfl, rfl, rfl, rfl, rfl, rfl⟩
  | succ m ih =>
    intro g g' h
    unfold draw_n at h
    split at h
    · exact absurd h (by simp)
    · rename_i g1 hg1
      have hg1c : g1.players_list = g.players_list ∧ g1.current_index = g.current_index ∧
          g1.direction = g.direction ∧ g1.pending_draw_count = g.pending_draw_count ∧
          g1.pending_draw_for_index = g.pending_draw_for_index ∧
          g1.current_color = g.current_color ∧ g1.hands.length = g.hands.length := by
        split at hg1
        · obtain ⟨top, _, heq⟩ := transfer_eq hg1
          subst heq
          exact ⟨rfl, rfl, rfl, rfl, rfl, rfl, rfl⟩
        · injection hg1 with hg1; subst hg1
          exact ⟨rfl, rfl, rfl, rfl, rfl, rfl, rfl⟩
      split at h
      · injection h with h; subst h; exact hg1c
      · have h2 := ih h
        simp only [length_modifyIdx] at h2
        exact ⟨h2.1.trans hg1c.1, h2.2.1.trans hg1c.2.1, h2.2.2.1.trans hg1c.2.2.1,
          h2.2.2.2.1.trans hg1c.2.2.2.1, h2.2.2.2.2.1.trans hg1c.2.2.2.2.1,
          h2.2.2.2.2.2.1.trans hg1c.2.2.2.2.2.1, h2.2.2.2.2.2.2.trans hg1c.2.2.2.2.2.2⟩

lemma draw_n_total {shuffle : List Card → List Card} (hshuf : ∀ l, (shuffle l).Perm l)
    {i : Nat} : ∀ {n : Nat} {g g' : GameState}, draw_n shuffle i n g = some g' →
      i < g.hands.length → totalCards g' = totalCards g := by
  intro n
  induction n with
  | zero =>
    intro g g' h _
    unfold draw_n at h
    injection h with h; subst h; rfl
  | succ m ih =>
    intro g g' h hi
    unfold draw_n at h
    split at h
    · exact absurd h (by simp)
    · rename_i g1 hg1
      have hg1t : totalCards g1 = totalCards g ∧ g1.hands = g.hands := by
        split at hg1
        · rename_i hcond
          obtain ⟨top, _, heq⟩ := transfer_eq hg1
          exact ⟨transfer_total hshuf hg1 hcond, by rw [heq]⟩
        · injection hg1 with hg1; subst hg1; exact ⟨rfl, rfl⟩
      split at h
      · injection h with h; subst h; exact hg1t.1
      · rename_i c hc
        have hrne : g1.remaining_cards ≠ [] := by
          intro hnil; rw [hnil] at hc; simp at hc
        have hi1 : i < g1.hands.length := by rw [hg1t.2]; exact hi
        have hrec := ih h (by simpa [length_modifyIdx] using hi1)
        rw [hrec, hg1t.1.symm]
        have hsum := sum_map_length_modifyIdx g1.hands i (fun hh => hh ++ [c]) hi1
        simp only [List.length_append, List.length_cons, List.length_nil] at hsum
        have hpos : 0 < g1.remaining_cards.length := List.length_pos.mpr hrne
        simp only [totalCards, List.length_dropLast]
        omega

/-! ## State-update projection lemmas and the reachability invariant -/

@[simp] lemma advance_turn_players (g : GameState) (s : Int) :
    (advance_turn g s).players_list = g.players_list := rfl
@[simp] lemma advance_turn_hands (g : GameState) (s : Int) :
    (advance_turn g s).hands = g.hands := rfl
@[simp] lemma advance_turn_current (g : GameState) (s : Int) :
    (advance_turn g s).current_index = next_index g s := rfl
@[simp] lemma advance_turn_direction (g : GameState) (s : Int) :
    (advance_turn g s).direction = g.direction := rfl
@[simp] lemma advance_turn_color (g : GameState) (s : Int) :
    (advance_turn g s).current_color = g.current_color := rfl
@[simp] lemma advance_turn_pcount (g : GameState) (s : Int) :
    (advance_turn g s).pending_draw_count = g.pending_draw_count := rfl
@[simp] lemma advance_turn_pfor (g : GameState) (s : Int) :
    (advance_turn g s).pending_draw_for_index = g.pending_draw_for_index := rfl
@[simp] lemma advance_turn_remaining (g : GameState) (s : Int) :
    (advance_turn g s).remaining_cards = g.remaining_cards := rfl
@[simp] lemma advance_turn_stack (g : GameState) (s : Int) :
    (advance_turn g s).game_stack = g.game_stack := rfl
@[simp] lemma totalCards_advance_turn (g : GameState) (s : Int) :
    totalCards (advance_turn g s) = totalCards g := rfl

@[simp] lemma drawnState_players (g : GameState) (c : Card) :
    (drawnState g c).players_list = g.players_list := rfl
@[simp] lemma drawnState_hands (g : GameState) (c : Card) :
    (drawnState g c).hands = modifyIdx g.hands g.current_index (fun h => h ++ [c]) := rfl
@[simp] lemma drawnState_current (g : GameState) (c : Card) :
    (drawnState g c).current_index = g.current_index := rfl
@[simp] lemma drawnState_direction (g : GameState) (c : Card) :
    (drawnState g c).direction = g.direction := rfl
@[simp] lemma drawnState_color (g : GameState) (c : Card) :
    (drawnState g c).current_color = g.current_color := rfl
@[simp] lemma drawnState_pcount (g : GameState) (c : Card) :
    (drawnState g c).pending_draw_count = g.pending_draw_count := rfl
@[simp] lemma drawnState_pfor (g : GameState) (c : Card) :
    (drawnState g c).pending_draw_for_index = g.pending_draw_for_index := rfl
@[simp] lemma drawnState_remaining (g : GameState) (c : Card) :
    (drawnState g c).remaining_cards = g.remaining_cards.dropLast := rfl
@[simp] lemma drawnState_stack (g : GameState) (c : Card) :
    (drawnState g c).game_stack = g.game_stack := rfl

structure GameInv (g : GameState) : Prop where
  total : totalCards g = 108
  hlen : g.hands.length = g.players_list.length
  cur : g.current_index < g.players_list.length
  np : 2 ≤ g.players_list.length
  pending : 0 < g.pending_draw_count → g.pending_draw_for_index = some g.current_index

lemma draw_inv {shuffle : List Card → List Card} {g : GameState} {pid : PlayerId}
    {g' : GameState} {r : Res} (hshuf : ∀ l, (shuffle l).Perm l)
    (hI : GameInv g) (h : draw shuffle g pid = some (g', r)) : GameInv g' := by
  unfold draw at h
  split at h
  · exact absurd h (by simp)
  · split at h
    · exact absurd h (by simp)
    · rename_i current_player hcp
      split at h
      · simp only [Option.some.injEq, Prod.mk.injEq] at h
        exact h.1 ▸ hI
      · split at h
        · exact absurd h (by simp)
        · rename_i g1 hg1
          have hg1f : totalCards g1 = totalCards g ∧ g1.hands = g.hands ∧
              g1.players_list = g.players_list ∧ g1.current_index = g.current_index ∧
              g1.pending_draw_count = g.pending_draw_count ∧
              g1.pending_draw_for_index = g.pending_draw_for_index := by
            split at hg1
            · rename_i hcond
              obtain ⟨top, _, heq⟩ := transfer_eq hg1
              exact ⟨transfer_total hshuf hg1 hcond, by rw [heq], by rw [heq],
                by rw [heq], by rw [heq], by rw [heq]⟩
            · injection hg1 with hg1; subst hg1
              exact ⟨rfl, rfl, rfl, rfl, rfl, rfl⟩
          have hI1 : GameInv g1 := by
            refine ⟨hg1f.1.trans hI.total, ?_, ?_, ?_, ?_⟩
            · rw [hg1f.2.1, hg1f.2.2.1]; exact hI.hlen
            · rw [hg1f.2.2.2.1, hg1f.2.2.1]; exact hI.cur
            · rw [hg1f.2.2.1]; exact hI.np
            · rw [hg1f.2.2.2.2.1, hg1f.2.2.2.2.2, hg1f.2.2.2.1]; exact hI.pending
          split at h
          · simp only [Option.some.injEq, Prod.mk.injEq] at h
            exact h.1 ▸ hI1
          · rename_i new_card hnc
            have hrne : g1.remaining_cards ≠ [] := by
              intro hnil; rw [hnil] at hnc; simp at hnc
            have hrpos : 0 < g1.remaining_cards.length := List.length_pos.mpr hrne
            have hcur1 : g1.current_index < g1.hands.length := hI1.hlen ▸ hI1.cur
            have hsum := sum_map_length_modifyIdx g1.hands g1.current_index
              (fun hh => hh ++ [new_card]) hcur1
            simp only [List.length_append, List.length_cons, List.length_nil] at hsum
            have htot2 : totalCards (drawnState g1 new_card) = totalCards g1 := by
              simp only [totalCards, drawnState, List.length_dropLast]
              omega
            have hnpos : 0 < g1.players_list.length := by have := hI1.np; omega
            split at h
            · rename_i hp
              split at h
              · simp only [Option.some.injEq, Prod.mk.injEq] at h
                obtain ⟨hg', hr⟩ := h
                subst hg'
                refine ⟨?_, ?_, ?_, ?_, ?_⟩
                · simpa using htot2.trans hI1.total
                · simp [length_modifyIdx, hI1.hlen]
                · simpa using next_index_lt _ 1 (by simpa using hnpos)
                · simpa using hI1.np
                · intro hc; simp at hc
              · simp only [Option.some.injEq, Prod.mk.injEq] at h
                obtain ⟨hg', hr⟩ := h
                subst hg'
                refine ⟨?_, ?_, ?_, ?_, ?_⟩
                · show totalCards (drawnState g1 new_card) = 108
                  exact htot2.trans hI1.total
                · show (drawnState g1 new_card).hands.length = g1.players_list.length
                  simp [length_modifyIdx, hI1.hlen]
                · show g1.current_index < g1.players_list.length
                  exact hI1.cur
                · exact hI1.np
                · intro _
                  show g1.pending_draw_for_index = some g1.current_index
                  exact hp.2
            · rename_i hp
              have hcount : g1.pending_draw_count = 0 := by
                by_contra hc
                exact hp ⟨Nat.pos_of_ne_zero hc, hI1.pending (Nat.pos_of_ne_zero hc)⟩
              split at h
              · exact absurd h (by simp)
              · rename_i top hst
                split at h
                · simp only [Option.some.injEq, Prod.mk.injEq] at h
                  obtain ⟨hg', hr⟩ := h
                  subst hg'
                  refine ⟨htot2.trans hI1.total, ?_, ?_, ?_, ?_⟩
                  · simp [length_modifyIdx, hI1.hlen]
                  · simpa using hI1.cur
                  · simpa using hI1.np
                  · intro hc
                    rw [drawnState_pcount, hcount] at hc
                    omega
                · simp only [Option.some.injEq, Prod.mk.injEq] at h
                  obtain ⟨hg', hr⟩ := h
                  subst hg'
                  refine ⟨?_, ?_, ?_, ?_, ?_⟩
                  · simpa using htot2.trans hI1.total
                  · simp [length_modifyIdx, hI1.hlen]
                  · simpa using next_index_lt _ 1 (by simpa using hnpos)
                  · simpa using hI1.np
                  · intro hc
                    rw [advance_turn_pcount, drawnState_pcount, hcount] at hc
                    omega

@[simp] lemma playCommitState_players (g : GameState) (c : Card) :
    (playCommitState g c).players_list = g.players_list := rfl
@[simp] lemma playCommitState_hands (g : GameState) (c : Card) :
    (playCommitState g c).hands = modifyIdx g.hands g.current_index
      (fun _ => eraseFirst (g.hands.getD g.current_index []) c) := rfl
@[simp] lemma playCommitState_current (g : GameState) (c : Card) :
    (playCommitState g c).current_index = g.current_index := rfl
@[simp] lemma playCommitState_direction (g : GameState) (c : Card) :
    (playCommitState g c).direction = g.direction := rfl
@[simp] lemma playCommitState_color (g : GameState) (c : Card) :
    (playCommitState g c).current_color = g.current_color := rfl
@[simp] lemma playCommitState_pcount (g : GameState) (c : Card) :
    (playCommitState g c).pending_draw_count = g.pending_draw_count := rfl
@[simp] lemma playCommitState_pfor (g : GameState) (c : Card) :
    (playCommitState g c).pending_draw_for_index = g.pending_draw_for_index := rfl
@[simp] lemma playCommitState_remaining (g : GameState) (c : Card) :
    (playCommitState g c).remaining_cards = g.remaining_cards := rfl
@[simp] lemma playCommitState_stack (g : GameState) (c : Card) :
    (playCommitState g c).game_stack = g.game_stack ++ [c] := rfl

@[simp] lemma playColorState_players (g : GameState) (c : Card) (cc : Option Color) :
    (playColorState g c cc).players_list = g.players_list := by
  unfold playColorState; split <;> rfl
@[simp] lemma playColorState_hands (g : GameState) (c : Card) (cc : Option Color) :
    (playColorState g c cc).hands = (playCommitState g c).hands := by
  unfold playColorState; split <;> rfl
@[simp] lemma playColorState_current (g : GameState) (c : Card) (cc : Option Color) :
    (playColorState g c cc).current_index = g.current_index := by
  unfold playColorState; split <;> rfl
@[simp] lemma playColorState_direction (g : GameState) (c : Card) (cc : Option Color) :
    (playColorState g c cc).direction = g.direction := by
  unfold playColorState; split <;> rfl
@[simp] lemma playColorState_pcount (g : GameState) (c : Card) (cc : Option Color) :
    (playColorState g c cc).pending_draw_count = g.pending_draw_count := by
  unfold playColorState; split <;> rfl
@[simp] lemma playColorState_pfor (g : GameState) (c : Card) (cc : Option Color) :
    (playColorState g c cc).pending_draw_for_index = g.pending_draw_for_index := by
  unfold playColorState; split <;> rfl
@[simp] lemma playColorState_remaining (g : GameState) (c : Card) (cc : Option Color) :
    (playColorState g c cc).remaining_cards = g.remaining_cards := by
  unfold playColorState; split <;> rfl
@[simp] lemma playColorState_stack (g : GameState) (c : Card) (cc : Option Color) :
    (playColorState g c cc).game_stack = g.game_stack ++ [c] := by
  unfold playColorState; split <;> rfl
@[simp] lemma totalCards_playColorState (g : GameState) (c : Card) (cc : Option Color) :
    totalCards (playColorState g c cc) = totalCards (playCommitState g c) := by
  unfold playColorState; split <;> rfl

@[simp] lemma applyActionEffect_players (g : GameState) (c : Card) :
    (applyActionEffect g c).1.players_list = g.players_list := by
  unfold applyActionEffect; split <;> try rfl
  split <;> try rfl
  all_goals (split <;> try rfl)
  all_goals (split <;> rfl)
@[simp] lemma applyActionEffect_hands (g : GameState) (c : Card) :
    (applyActionEffect g c).1.hands = g.hands := by
  unfold applyActionEffect; split <;> try rfl
  split <;> try rfl
  all_goals (split <;> try rfl)
  all_goals (split <;> rfl)
@[simp] lemma applyActionEffect_current (g : GameState) (c : Card) :
    (applyActionEffect g c).1.current_index = g.current_index := by
  unfold applyActionEffect; split <;> try rfl
  split <;> try rfl
  all_goals (split <;> try rfl)
  all_goals (split <;> rfl)
@[simp] lemma applyActionEffect_remaining (g : GameState) (c : Card) :
    (applyActionEffect g c).1.remaining_cards = g.remaining_cards := by
  unfold applyActionEffect; split <;> try rfl
  split <;> try rfl
  all_goals (split <;> try rfl)
  all_goals (split <;> rfl)
@[simp] lemma applyActionEffect_stack (g : GameState) (c : Card) :
    (applyActionEffect g c).1.game_stack = g.game_stack := by
  unfold applyActionEffect; split <;> try rfl
  split <;> try rfl
  all_goals (split <;> try rfl)
  all_goals (split <;> rfl)
@[simp] lemma totalCards_applyActionEffect (g : GameState) (c : Card) :
    totalCards (applyActionEffect g c).1 = totalCards g := by
  unfold applyActionEffect; split <;> try rfl
  split <;> try rfl
  all_goals (split <;> try rfl)
  all_goals (split <;> rfl)

lemma next_index_congr (g1 g2 : GameState) (s : Int)
    (h1 : g1.current_index = g2.current_index) (h2 : g1.direction = g2.direction)
    (h3 : g1.players_list = g2.players_list) : next_index g1 s = next_index g2 s := by
  unfold next_index; rw [h1, h2, h3]

lemma applyActionEffect_pending (g : GameState) (c : Card) :
    ((applyActionEffect g c).1.pending_draw_count = g.pending_draw_count ∧
      (applyActionEffect g c).1.pending_draw_for_index = g.pending_draw_for_index) ∨
    ((applyActionEffect g c).2 = 1 ∧
      (applyActionEffect g c).1.pending_draw_for_index = some (next_index g 1) ∧
      (applyActionEffect g c).1.current_index = g.current_index ∧
      (applyActionEffect g c).1.direction = g.direction ∧
      (applyActionEffect g c).1.players_list = g.players_list ∧
      0 < (applyActionEffect g c).1.pending_draw_count) := by
  unfold applyActionEffect
  split
  · left; exact ⟨rfl, rfl⟩
  · split
    · split
      · left; exact ⟨rfl, rfl⟩
      · left; exact ⟨rfl, rfl⟩
    · split
      · right; exact ⟨rfl, rfl, rfl, rfl, rfl, by norm_num⟩
      · split
        · right; exact ⟨rfl, rfl, rfl, rfl, rfl, by norm_num⟩
        · left; exact ⟨rfl, rfl⟩

lemma playCommit_inv {shuffle : List Card → List Card} {g : GameState} {pid : PlayerId}
    {card : Card} {cc : Option Color} {uno : Bool} {g' : GameState} {r : PlayRes}
    (hshuf : ∀ l, (shuffle l).Perm l) (hI : GameInv g)
    (hmem : card ∈ g.hands.getD g.current_index [])
    (hcount0 : g.pending_draw_count = 0)
    (h : playCommit shuffle g pid card cc uno = some (g', r)) : GameInv g' := by
  have hcur : g.current_index < g.hands.length := hI.hlen ▸ hI.cur
  have herase := length_eraseFirst_of_mem hmem
  have hsum := sum_map_length_modifyIdx g.hands g.current_index
    (fun _ => eraseFirst (g.hands.getD g.current_index []) card) hcur
  simp only at hsum
  have htotC : totalCards (playCommitState g card) = totalCards g := by
    simp only [totalCards, playCommitState_remaining, playCommitState_stack,
      playCommitState_hands, List.length_append, List.length_cons, List.length_nil]
    omega
  have hIC : GameInv (playCommitState g card) := by
    refine ⟨htotC.trans hI.total, ?_, ?_, ?_, ?_⟩
    · simp [length_modifyIdx, hI.hlen]
    · simpa using hI.cur
    · simpa using hI.np
    · intro hc; rw [playCommitState_pcount, hcount0] at hc; exact absurd hc (lt_irrefl 0)
  have hI2 : GameInv (playColorState g card cc) := by
    refine ⟨?_, ?_, ?_, ?_, ?_⟩
    · rw [totalCards_playColorState]; exact hIC.total
    · simp [length_modifyIdx, hI.hlen]
    · simpa using hI.cur
    · simpa using hI.np
    · intro hc; rw [playColorState_pcount, hcount0] at hc; exact absurd hc (lt_irrefl 0)
  unfold playCommit at h
  split at h
  · simp only [Option.some.injEq, Prod.mk.injEq] at h
    exact h.1 ▸ hIC
  · split at h
    · exact absurd h (by simp)
    · rename_i g3 hg3
      have hp3 : g3.pending_draw_count = 0 := by
        split at hg3
        · rw [(draw_n_const hg3).2.2.2.1]; simpa using hcount0
        · injection hg3 with hg3; subst hg3; simpa using hcount0
      have hI3 : GameInv g3 := by
        split at hg3
        · have hconst := draw_n_const hg3
          have htot := draw_n_total hshuf hg3
            (by simpa [length_modifyIdx] using hcur)
          refine ⟨?_, ?_, ?_, ?_, ?_⟩
          · rw [htot, totalCards_playColorState]; exact hIC.total
          · rw [hconst.2.2.2.2.2.2, hconst.1]
            simp [length_modifyIdx, hI.hlen]
          · rw [hconst.2.1, hconst.1]; simpa using hI.cur
          · rw [hconst.1]; simpa using hI.np
          · intro hc; rw [hp3] at hc; exact absurd hc (lt_irrefl 0)
        · injection hg3 with hg3; subst hg3; exact hI2
      split at h
      · simp only [Option.some.injEq, Prod.mk.injEq] at h
        exact h.1 ▸ hI3
      · simp only [Option.some.injEq, Prod.mk.injEq] at h
        obtain ⟨hg', hr⟩ := h
        subst hg'
        have hnpos3 : 0 < g3.players_list.length := by have := hI3.np; omega
        refine ⟨?_, ?_, ?_, ?_, ?_⟩
        · rw [totalCards_advance_turn, totalCards_applyActionEffect]; exact hI3.total
        · simp [hI3.hlen]
        · rw [advance_turn_current]
          have := next_index_lt (applyActionEffect g3 card).1 (applyActionEffect g3 card).2
            (by simpa using hnpos3)
          simpa using this
        · simpa using hI3.np
        · intro hc
          rw [advance_turn_pcount] at hc
          rcases applyActionEffect_pending g3 card with ⟨hc1, _⟩ | ⟨hs, hfor, hcu, hd, hpl, _⟩
          · rw [hc1, hp3] at hc; exact absurd hc (lt_irrefl 0)
          · rw [advance_turn_pfor, hfor, advance_turn_current, hs]
            congr 1
            exact (next_index_congr _ _ 1 hcu hd hpl).symm

lemma play_inv {shuffle : List Card → List Card} {g : GameState} {pid : PlayerId}
    {card : Card} {cc : Option Color} {uno : Bool} {g' : GameState} {r : PlayRes}
    (hshuf : ∀ l, (shuffle l).Perm l) (hI : GameInv g)
    (h : play shuffle g pid card cc uno = some (g', r)) : GameInv g' := by
  unfold play at h
  split at h
  · exact absurd h (by simp)
  · split at h
    · exact absurd h (by simp)
    · rename_i current_player hcp
      split at h
      · simp only [Option.some.injEq, Prod.mk.injEq] at h
        exact h.1 ▸ hI
      · split at h
        · simp only [Option.some.injEq, Prod.mk.injEq] at h
          exact h.1 ▸ hI
        · rename_i hnp
          split at h
          · rename_i hmem
            split at h
            · exact absurd h (by simp)
            · rename_i top htop
              split at h
              · simp only [Option.some.injEq, Prod.mk.injEq] at h
                exact h.1 ▸ hI
              · split at h
                · simp only [Option.some.injEq, Prod.mk.injEq] at h
                  exact h.1 ▸ hI
                · have hcount0 : g.pending_draw_count = 0 := by
                    by_contra hc
                    exact hnp ⟨Nat.pos_of_ne_zero hc,
                      hI.pending (Nat.pos_of_ne_zero hc)⟩
                  exact playCommit_inv hshuf hI hmem hcount0 h
          · exact absurd h (by simp)

@[simp] lemma startPlacedState_players (g : GameState) (cc : Color) (c : Card) (rem : List Card) :
    (startPlacedState g cc c rem).players_list = g.players_list := rfl
@[simp] lemma startPlacedState_hands (g : GameState) (cc : Color) (c : Card) (rem : List Card) :
    (startPlacedState g cc c rem).hands = g.hands := rfl
@[simp] lemma startPlacedState_current (g : GameState) (cc : Color) (c : Card) (rem : List Card) :
    (startPlacedState g cc c rem).current_index = g.current_index := rfl
@[simp] lemma startPlacedState_direction (g : GameState) (cc : Color) (c : Card) (rem : List Card) :
    (startPlacedState g cc c rem).direction = g.direction := rfl
@[simp] lemma startPlacedState_pcount (g : GameState) (cc : Color) (c : Card) (rem : List Card) :
    (startPlacedState g cc c rem).pending_draw_count = g.pending_draw_count := rfl
@[simp] lemma startPlacedState_pfor (g : GameState) (cc : Color) (c : Card) (rem : List Card) :
    (startPlacedState g cc c rem).pending_draw_for_index = g.pending_draw_for_index := rfl
@[simp] lemma startPlacedState_remaining (g : GameState) (cc : Color) (c : Card) (rem : List Card) :
    (startPlacedState g cc c rem).remaining_cards = rem := rfl
@[simp] lemma startPlacedState_stack (g : GameState) (cc : Color) (c : Card) (rem : List Card) :
    (startPlacedState g cc c rem).game_stack = g.game_stack ++ [c] := rfl

lemma findStartCard_spec {shuffle : List Card → List Card}
    (hshuf : ∀ l, (shuffle l).Perm l) :
    ∀ {fuel : Nat} {rem rem' : List Card} {c : Card},
      findStartCard shuffle fuel rem = some (c, rem') →
      c.is_draw_four = false ∧ rem'.length + 1 = rem.length := by
  intro fuel
  induction fuel with
  | zero => intro rem rem' c h; exact absurd h (by simp [findStartCard])
  | succ m ih =>
    intro rem rem' c h
    unfold findStartCard at h
    split at h
    · exact absurd h (by simp)
    · rename_i c0 hc0
      have hne : rem ≠ [] := by intro hnil; rw [hnil] at hc0; simp at hc0
      have hpos : 0 < rem.length := List.length_pos.mpr hne
      split at h
      · have := ih h
        refine ⟨this.1, ?_⟩
        rw [this.2, (hshuf (c0 :: rem.dropLast)).length_eq]
        simp [List.length_dropLast]
        omega
      · rename_i hdf
        simp only [Option.some.injEq, Prod.mk.injEq] at h
        obtain ⟨hc, hr⟩ := h
        subst hc; subst hr
        refine ⟨by simpa using hdf, ?_⟩
        simp [List.length_dropLast]
        omega

lemma start_discard_spec {shuffle : List Card → List Card} {choose_color : Color}
    {fuel : Nat} {g g' : GameState}
    (h : start_discard shuffle choose_color fuel g = some g')
    (hp0 : g.pending_draw_count = 0)
    (hcur : g.current_index < g.players_list.length) :
    ∃ c rem, findStartCard shuffle fuel g.remaining_cards = some (c, rem) ∧
      g'.players_list = g.players_list ∧ g'.hands = g.hands ∧
      g'.remaining_cards = rem ∧ g'.game_stack = g.game_stack ++ [c] ∧
      g'.current_index < g.players_list.length ∧
      (0 < g'.pending_draw_count → g'.pending_draw_for_index = some g'.current_index) ∧
      (c.value = Value.drawTwo →
        g'.pending_draw_count = 2 ∧
        g'.pending_draw_for_index =
          some (next_index (startPlacedState g choose_color c rem) 1) ∧
        g'.current_index = next_index (startPlacedState g choose_color c rem) 1) := by
  have hnpos : 0 < g.players_list.length := by omega
  unfold start_discard at h
  split at h
  · exact absurd h (by simp)
  · rename_i p c rem hfind
    refine ⟨c, rem, hfind, ?_⟩
    split at h
    · rename_i hv
      injection h with h; subst h
      refine ⟨by simp, by simp, by simp, by simp, ?_, ?_, ?_⟩
      · simpa using next_index_lt _ 2 (by simpa using hnpos)
      · intro hc; simp [hp0] at hc
      · intro hv2; rw [hv] at hv2; exact absurd hv2 (by decide)
    · split at h
      · split at h
        · injection h with h; subst h
          refine ⟨by simp, by simp, by simp, by simp, ?_, ?_, ?_⟩
          · simpa using next_index_lt _ 2 (by simpa using hnpos)
          · intro hc; simp [hp0] at hc
          · intro hv2; rename_i hv _; rw [hv] at hv2; exact absurd hv2 (by decide)
        · injection h with h; subst h
          refine ⟨by simp, by simp, by simp, by simp, ?_, ?_, ?_⟩
          · simpa using hcur
          · intro hc; simp [hp0] at hc
          · intro hv2; rename_i hv _; rw [hv] at hv2; exact absurd hv2 (by decide)
      · split at h
        · rename_i hv
          injection h with h; subst h
          refine ⟨by simp, by simp, by simp, by simp, ?_, ?_, ?_⟩
          · simpa using next_index_lt _ 1 (by simpa using hnpos)
          · intro _
            simp only [advance_turn_pfor, advance_turn_current]
            rfl
          · intro _
            refine ⟨by simp, ?_, ?_⟩
            · simp only [advance_turn_pfor]
              try rfl
            · simp only [advance_turn_current]
              try rfl
        · injection h with h; subst h
          refine ⟨by simp, by simp, by simp, by simp, ?_, ?_, ?_⟩
          · simpa using hcur
          · intro hc; simp [hp0] at hc
          · intro hv2; rename_i hv; exact absurd hv2 hv

lemma dealRound_spec : ∀ (hs : List (List Card)) (cs : List Card),
    hs.length ≤ cs.length →
    (dealRound cs hs).2.length = hs.length ∧
    (dealRound cs hs).1.length + hs.length = cs.length ∧
    ∀ k, (∀ h ∈ hs, h.length = k) → ∀ h ∈ (dealRound cs hs).2, h.length = k + 1 := by
  intro hs
  induction hs with
  | nil =>
    intro cs _
    refine ⟨?_, ?_, ?_⟩ <;> simp [dealRound]
  | cons hd tl ih =>
    intro cs hlen
    cases cs with
    | nil => simp at hlen
    | cons c cs' =>
      have hrec := ih cs' (by simpa using hlen)
      refine ⟨?_, ?_, ?_⟩
      · simp [dealRound, hrec.1]
      · simp only [dealRound, List.length_cons]
        omega
      · intro k hk h hmem
        simp only [dealRound, List.mem_cons] at hmem
        rcases hmem with hmem | hmem
        · subst hmem
          simp [hk hd (List.mem_cons_self hd tl)]
        · exact hrec.2.2 k (fun x hx => hk x (List.mem_cons_of_mem hd hx)) h hmem

lemma dealLoop_uniform : ∀ (m k : Nat) (hs : List (List Card)) (cs : List Card),
    (∀ h ∈ hs, h.length = k) → cs.length = hs.length * m →
    (∀ h ∈ dealLoop m cs hs, h.length = k + m) ∧ (dealLoop m cs hs).length = hs.length := by
  intro m
  induction m with
  | zero =>
    intro k hs cs hk _
    exact ⟨fun h hm => by simpa using hk h hm, rfl⟩
  | succ p ih =>
    intro k hs cs hk hlen
    cases cs with
    | nil =>
      have h0 : hs.length = 0 := by
        simp only [List.length_nil] at hlen
        rcases Nat.mul_eq_zero.mp hlen.symm with h | h
        · exact h
        · exact absurd h (by omega)
      have hnil : hs = [] := List.length_eq_zero.mp h0
      subst hnil
      exact ⟨by intro h hm; simp [dealLoop] at hm, by simp [dealLoop]⟩
    | cons c cs' =>
      have hle : hs.length ≤ (c :: cs').length := by
        rw [hlen, Nat.mul_succ]
        omega
      have hround := dealRound_spec hs (c :: cs') hle
      have hlen1 : (dealRound (c :: cs') hs).1.length =
          (dealRound (c :: cs') hs).2.length * p := by
        have h1 := hround.2.1
        rw [hlen, Nat.mul_succ] at h1
        rw [hround.1]
        omega
      have hrec := ih (k + 1) (dealRound (c :: cs') hs).2 (dealRound (c :: cs') hs).1
        (hround.2.2 k hk) hlen1
      constructor
      · intro h hm
        have : h.length = k + 1 + p := hrec.1 h (by simpa [dealLoop] using hm)
        omega
      · show (dealLoop (p + 1) (c :: cs') hs).length = hs.length
        simp only [dealLoop]
        rw [hrec.2, hround.1]

lemma sum_map_length_of_uniform (l : List (List Card)) (k : Nat)
    (h : ∀ x ∈ l, x.length = k) : (l.map List.length).sum = l.length * k := by
  induction l with
  | nil => simp
  | cons a as ih =>
    simp only [List.map_cons, List.sum_cons, List.length_cons]
    rw [h a (List.mem_cons_self a as), ih (fun x hx => h x (List.mem_cons_of_mem a hx))]
    ring

@[simp] lemma initialState_players (d : List Card) (ps : List PlayerId) (hsz : Nat) :
    (initialState d ps hsz).players_list = ps := rfl
@[simp] lemma initialState_hands (d : List Card) (ps : List PlayerId) (hsz : Nat) :
    (initialState d ps hsz).hands =
      dealLoop hsz (d.take (ps.length * hsz)) (List.replicate ps.length []) := rfl
@[simp] lemma initialState_current (d : List Card) (ps : List PlayerId) (hsz : Nat) :
    (initialState d ps hsz).current_index = 0 := rfl
@[simp] lemma initialState_direction (d : List Card) (ps : List PlayerId) (hsz : Nat) :
    (initialState d ps hsz).direction = 1 := rfl
@[simp] lemma initialState_pcount (d : List Card) (ps : List PlayerId) (hsz : Nat) :
    (initialState d ps hsz).pending_draw_count = 0 := rfl
@[simp] lemma initialState_remaining (d : List Card) (ps : List PlayerId) (hsz : Nat) :
    (initialState d ps hsz).remaining_cards = d.drop (ps.length * hsz) := rfl
@[simp] lemma initialState_stack (d : List Card) (ps : List PlayerId) (hsz : Nat) :
    (initialState d ps hsz).game_stack = [] := rfl

lemma standardDeck_length : standardDeck.length = 108 := by decide

lemma mkGame_facts {deckOrder : List Card} {players : List PlayerId} {hand_size : Nat}
    {choose_color : Color} {shuffle : List Card → List Card} {fuel : Nat} {g : GameState}
    (hdeck : deckOrder.length = 108) (hshuf : ∀ l, (shuffle l).Perm l)
    (h : mkGame deckOrder players hand_size choose_color shuffle fuel = some g) :
    2 ≤ players.length ∧
    players.length * hand_size + 1 ≤ 108 ∧
    g.players_list = players ∧
    (∀ hd ∈ g.hands, hd.length = hand_size) ∧
    g.hands.length = players.length ∧
    (g.hands.map List.length).sum = players.length * hand_size ∧
    g.current_index < players.length ∧
    (0 < g.pending_draw_count → g.pending_draw_for_index = some g.current_index) ∧
    ∃ c rem, findStartCard shuffle fuel (deckOrder.drop (players.length * hand_size)) =
        some (c, rem) ∧
      c.is_draw_four = false ∧ g.game_stack = [c] ∧ g.remaining_cards = rem ∧
      rem.length + 1 + players.length * hand_size = 108 := by
  unfold mkGame at h
  split at h
  · exact absurd h (by simp)
  · rename_i hlt
    have hn2 : 2 ≤ players.length := by omega
    obtain ⟨c, rem, hfind, hpl, hhands, hrem, hstack, hcurlt, hpend, _⟩ :=
      start_discard_spec h (by simp) (by simp; omega)
    have hfs := findStartCard_spec hshuf hfind
    simp only [initialState_remaining] at hfs
    have hdroplen : (deckOrder.drop (players.length * hand_size)).length =
        108 - players.length * hand_size := by
      rw [List.length_drop, hdeck]
    have hbound : players.length * hand_size + 1 ≤ 108 := by omega
    have htake : (deckOrder.take (players.length * hand_size)).length =
        players.length * hand_size := by
      rw [List.length_take]
      omega
    have huni := dealLoop_uniform hand_size 0 (List.replicate players.length [])
      (deckOrder.take (players.length * hand_size))
      (fun x hx => by rw [List.eq_of_mem_replicate hx]; rfl)
      (by rw [htake, List.length_replicate])
    rw [List.length_replicate] at huni
    have hhands_eq : g.hands =
        dealLoop hand_size (deckOrder.take (players.length * hand_size))
          (List.replicate players.length []) := by
      rw [hhands]; rfl
    refine ⟨hn2, hbound, by rw [hpl]; rfl, ?_, ?_, ?_, by simpa using hcurlt, hpend,
      c, rem, by simpa using hfind, hfs.1, by simpa using hstack, hrem, by omega⟩
    · intro hd hmem
      rw [hhands_eq] at hmem
      simpa using huni.1 hd hmem
    · rw [hhands_eq, huni.2]
    · rw [hhands_eq]
      rw [sum_map_length_of_uniform _ hand_size (fun x hx => by simpa using huni.1 x hx),
        huni.2]

lemma mkGame_inv {deckOrder : List Card} {players : List PlayerId} {hand_size : Nat}
    {choose_color : Color} {shuffle : List Card → List Card} {fuel : Nat} {g : GameState}
    (hperm : deckOrder.Perm standardDeck) (hshuf : ∀ l, (shuffle l).Perm l)
    (h : mkGame deckOrder players hand_size choose_color shuffle fuel = some g) :
    GameInv g := by
  have hdeck : deckOrder.length = 108 := hperm.length_eq.trans standardDeck_length
  obtain ⟨hn2, hbound, hpl, _, hhlen, hsum, hcur, hpend, c, rem, _, _, hstack, hrem, hlen⟩ :=
    mkGame_facts hdeck hshuf h
  refine ⟨?_, ?_, ?_, ?_, hpend⟩
  · simp only [totalCards, hrem, hstack, hsum]
    simp
    omega
  · rw [hhlen, hpl]
  · rw [hpl]; exact hcur
  · rw [hpl]; exact hn2

lemma reachable_inv {g : GameState} (h : Reachable g) : GameInv g := by
  induction h with
  | init d p hsz cc sh fuel g hperm hshuf hnd hmk => exact mkGame_inv hperm hshuf hmk
  | drawStep sh g pid g' r hshuf hg hstep ih => exact draw_inv hshuf ih hstep
  | playStep sh g pid card cc uno g' r hshuf hg hstep ih => exact play_inv hshuf ih hstep

lemma play_success_effect {shuffle : List Card → List Card} {g : GameState}
    {pid : PlayerId} {card : Card} {cc : Option Color} {uno : Bool} {g' : GameState}
    (h : play shuffle g pid card cc uno = some (g', PlayRes.success)) :
    ∃ g3 : GameState, g3.current_index = g.current_index ∧ g3.direction = g.direction ∧
      g3.players_list = g.players_list ∧
      g' = advance_turn (applyActionEffect g3 card).1 (applyActionEffect g3 card).2 := by
  unfold play at h
  split at h
  · exact absurd h (by simp)
  · split at h
    · exact absurd h (by simp)
    · rename_i current_player hcp
      split at h
      · simp only [Option.some.injEq, Prod.mk.injEq] at h
        exact absurd h.2 (by simp)
      · split at h
        · simp only [Option.some.injEq, Prod.mk.injEq] at h
          exact absurd h.2 (by simp)
        · split at h
          · rename_i hmem
            split at h
            · exact absurd h (by simp)
            · rename_i top htop
              split at h
              · simp only [Option.some.injEq, Prod.mk.injEq] at h
                exact absurd h.2 (by simp)
              · split at h
                · simp only [Option.some.injEq, Prod.mk.injEq] at h
                  exact absurd h.2 (by simp)
                · unfold playCommit at h
                  split at h
                  · simp only [Option.some.injEq, Prod.mk.injEq] at h
                    exact absurd h.2 (by simp)
                  · split at h
                    · exact absurd h (by simp)
                    · rename_i g3 hg3
                      have hf : g3.current_index = g.current_index ∧
                          g3.direction = g.direction ∧
                          g3.players_list = g.players_list := by
                        split at hg3
                        · have hc := draw_n_const hg3
                          refine ⟨hc.2.1.trans (by simp), hc.2.2.1.trans (by simp),
                            hc.1.trans (by simp)⟩
                        · injection hg3 with hg3; subst hg3
                          exact ⟨by simp, by simp, by simp⟩
                      split at h
                      · simp only [Option.some.injEq, Prod.mk.injEq] at h
                        exact absurd h.2 (by simp)
                      · simp only [Option.some.injEq, Prod.mk.injEq] at h
                        exact ⟨g3, hf.1, hf.2.1, hf.2.2, h.1.symm⟩
          · exact absurd h (by simp)

/-! ## Spec-side definitions and claim theorems -/

/-- The play legality test exactly as the claim states it (spec side of the
refinement for C5). -/
def specPlayable (current_color : Option Color) (card top_card : Card) : Prop :=
  match current_color with
  | some cc =>
    card.color = Color.black ∨ card.color = cc ∨ card.value = top_card.value
  | none =>
    top_card.color = Color.black ∨ card.color = Color.black ∨
      card.color = top_card.color ∨ card.value = top_card.value

/-- The score formula as the claim states it: digit cards count their
numeric value, draw-two/reverse/skip count 20, any black card counts 50
(spec side for C4; the catch-all arm covers exactly the black values
`draw-four` and `wild`). -/
def specCardPoints (c : Card) : Nat :=
  match c.value with
  | Value.num n => n
  | Value.drawTwo => 20
  | Value.reverse => 20
  | Value.skip => 20
  | _ => 50

/-- Sum of `specCardPoints` over the hands of all seats other than
`winner`, in seating order (spec side for C4). -/
def specScore (g : GameState) (winner : Nat) : Nat :=
  ((List.range g.players_list.length).filter (fun j => decide (j ≠ winner))).foldl
    (fun t j => t + ((g.hands.getD j []).map specCardPoints).sum) 0

lemma foldl_add_congr (l : List Nat) (f f' : Nat → Nat)
    (hff : ∀ j ∈ l, f j = f' j) :
    ∀ init : Nat, l.foldl (fun t j => t + f j) init = l.foldl (fun t j => t + f' j) init := by
  induction l with
  | nil => intro init; rfl
  | cons a as ih =>
    intro init
    simp only [List.foldl_cons]
    rw [hff a (List.mem_cons_self a as)]
    exact ih (fun j hj => hff j (List.mem_cons_of_mem a hj)) _

/-- C7: a successful, non-winning reverse play advances the turn by 2
steps with direction unchanged when there are exactly 2 players (landing
back on the same seat), and with 3 or more players negates the direction
and advances 1 step in the new direction, the result being floor-modulo
normalized into `[0, playerCount)`. -/
theorem C7_reverse_play (shuffle : List Card → List Card) (g : GameState) (pid : PlayerId)
    (card : Card) (cc : Option Color) (uno : Bool) (g' : GameState)
    (hp : play shuffle g pid card cc uno = some (g', PlayRes.success))
    (hv : card.value = Value.reverse)
    (hcur : g.current_index < g.players_list.length) :
    (g.players_list.length = 2 →
      g'.current_index = next_index g 2 ∧ g'.current_index = g.current_index ∧
      g'.direction = g.direction) ∧
    (3 ≤ g.players_list.length →
      g'.direction = -g.direction ∧
      g'.current_index =
        (((g.current_index : Int) + 1 * (-g.direction)) %
          (g.players_list.length : Int)).toNat ∧
      g'.current_index < g.players_list.length) := by
  obtain ⟨g3, hcu, hd, hpl, hg'⟩ := play_success_effect hp
  constructor
  · intro hn2
    have hn2' : g3.players_list.length = 2 := by rw [hpl]; exact hn2
    have heff : applyActionEffect g3 card = (g3, 2) := by
      unfold applyActionEffect; rw [hv]; simp [hn2']
    subst hg'
    rw [heff]
    have hx : next_index g3 2 = next_index g 2 := next_index_congr _ _ 2 hcu hd hpl
    refine ⟨by simp [hx], ?_, by simp [hd]⟩
    simp only [advance_turn_current]
    rw [next_index_two_of_two g3 hn2' (by rw [hcu]; omega), hcu]
  · intro hn3
    have hn2' : ¬(g3.players_list.length = 2) := by rw [hpl]; omega
    have heff : applyActionEffect g3 card = ({ g3 with direction := -g3.direction }, 1) := by
      unfold applyActionEffect; rw [hv]; simp [hn2']
    subst hg'
    rw [heff]
    refine ⟨by simp [hd], ?_, ?_⟩
    · simp only [advance_turn_current]
      unfold next_index
      simp [hcu, hd, hpl]
    · simp only [advance_turn_current]
      have := next_index_lt { g3 with direction := -g3.direction } 1
        (by simp [hpl]; omega)
      simpa [hpl] using this

/-- C5: the legality test `_can_play_card` is exactly the claimed
predicate, for every candidate card, top card and `current_color`. -/
theorem C5_legality_exact :
    ∀ (current_color : Option Color) (card top_card : Card),
      can_play_card current_color card top_card = true ↔
        specPlayable current_color card top_card := by
  intro current_color card top_card
  cases current_color with
  | none =>
    simp only [can_play_card, specPlayable, Card.is_black]
    by_cases h1 : top_card.color = Color.black
    · simp [h1]
    · by_cases h2 : card.color = Color.black
      · simp [h1, h2]
      · simp [h1, h2]
  | some cc =>
    simp only [can_play_card, specPlayable, Card.is_black]
    by_cases h2 : card.color = Color.black
    · simp [h2]
    · simp [h2]

/-- C8: a voluntary draw (no pending obligation on the current seat) from
a non-empty combined pile moves exactly the last card of the (possibly
recycled) draw pile into the current hand; if that card is playable
against the current top card and color the turn pointer is unchanged,
otherwise it advances by one step. -/
theorem C8_voluntary_draw (shuffle : List Card → List Card) (g : GameState) (pid : PlayerId)
    (hshuf : ∀ l, (shuffle l).Perm l)
    (hn2 : 2 ≤ g.players_list.length)
    (hget : g.players_list.get? g.current_index = some pid)
    (hnp : ¬(0 < g.pending_draw_count ∧ g.pending_draw_for_index = some g.current_index))
    (hstack : g.game_stack ≠ [])
    (hpile : g.remaining_cards ≠ [] ∨ g.game_stack.dropLast ≠ []) :
    ∃ (c top : Card),
      (if g.remaining_cards = [] then shuffle g.game_stack.dropLast
       else g.remaining_cards).getLast? = some c ∧
      g.game_stack.getLast? = some top ∧
      ∃ g' : GameState, draw shuffle g pid = some (g', Res.success) ∧
        g'.hands = modifyIdx g.hands g.current_index (fun h => h ++ [c]) ∧
        g'.remaining_cards =
          (if g.remaining_cards = [] then shuffle g.game_stack.dropLast
           else g.remaining_cards).dropLast ∧
        (can_play_card g.current_color c top = true → g'.current_index = g.current_index) ∧
        (can_play_card g.current_color c top = false → g'.current_index = next_index g 1) := by
  obtain ⟨top, htop⟩ : ∃ top, g.game_stack.getLast? = some top := by
    cases hls : g.game_stack.getLast? with
    | none => exact absurd (List.getLast?_eq_none_iff.mp hls) hstack
    | some t => exact ⟨t, rfl⟩
  have hpne : (if g.remaining_cards = [] then shuffle g.game_stack.dropLast
      else g.remaining_cards) ≠ [] := by
    by_cases hre : g.remaining_cards = []
    · rw [if_pos hre]
      intro hnil
      have hlen := (hshuf g.game_stack.dropLast).length_eq
      rw [hnil] at hlen
      rcases hpile with hp | hp
      · exact hp hre
      · exact hp (List.length_eq_zero.mp hlen.symm)
    · rw [if_neg hre]; exact hre
  obtain ⟨c, hc⟩ : ∃ c, (if g.remaining_cards = [] then shuffle g.game_stack.dropLast
      else g.remaining_cards).getLast? = some c := by
    cases hls : (if g.remaining_cards = [] then shuffle g.game_stack.dropLast
        else g.remaining_cards).getLast? with
    | none => exact absurd (List.getLast?_eq_none_iff.mp hls) hpne
    | some t => exact ⟨t, rfl⟩
  obtain ⟨g1, hg1, hfp, hfh, hfc, hfd, hfcol, hfpc, hfpf, hfrem, hfst⟩ :
      ∃ g1, (if g.remaining_cards = [] then transfer_played_cards shuffle g
              else some g) = some g1 ∧
        g1.players_list = g.players_list ∧ g1.hands = g.hands ∧
        g1.current_index = g.current_index ∧ g1.direction = g.direction ∧
        g1.current_color = g.current_color ∧
        g1.pending_draw_count = g.pending_draw_count ∧
        g1.pending_draw_for_index = g.pending_draw_for_index ∧
        g1.remaining_cards = (if g.remaining_cards = [] then shuffle g.game_stack.dropLast
                              else g.remaining_cards) ∧
        g1.game_stack.getLast? = some top := by
    by_cases hre : g.remaining_cards = []
    · refine ⟨{ g with remaining_cards := shuffle g.game_stack.dropLast,
                       game_stack := [top] }, ?_, rfl, rfl, rfl, rfl, rfl, rfl, rfl,
        by rw [if_pos hre], by simp⟩
      rw [if_pos hre]
      unfold transfer_played_cards
      rw [htop]
    · exact ⟨g, by rw [if_neg hre], rfl, rfl, rfl, rfl, rfl, rfl, rfl,
        by rw [if_neg hre], htop⟩
  have hn2' : ¬(g.players_list.length < 2) := by omega
  rw [List.get?_eq_getElem?] at hget
  have hdraw : draw shuffle g pid =
      if can_play_card g.current_color c top
      then some (drawnState g1 c, Res.success)
      else some (advance_turn (drawnState g1 c) 1, Res.success) := by
    have hcrem : g1.remaining_cards.getLast? = some c := by rw [hfrem]; exact hc
    simp [draw, hn2', hget, hg1, hcrem, hfpc, hfpf, hfc, hnp, hfcol, hfst]
  refine ⟨c, top, hc, htop, ?_⟩
  by_cases hcp : can_play_card g.current_color c top = true
  · refine ⟨drawnState g1 c, by rw [hdraw, if_pos hcp], ?_, ?_, ?_, ?_⟩
    · simp [hfh, hfc]
    · simp [hfrem]
    · intro _; simp [hfc]
    · intro hfalse; rw [hcp] at hfalse; cases hfalse
  · have hcp' : can_play_card g.current_color c top = false := by
      cases hb : can_play_card g.current_color c top
      · rfl
      · exact absurd hb hcp
    refine ⟨advance_turn (drawnState g1 c) 1, by rw [hdraw, if_neg hcp], ?_, ?_, ?_, ?_⟩
    · simp [hfh, hfc]
    · simp [hfrem]
    · intro htrue; rw [htrue] at hcp'; cases hcp'
    · intro _
      simp only [advance_turn_current]
      unfold next_index
      simp [hfc, hfd, hfp]

/-- C9: immediately after a successful construction every hand holds
exactly `hand_size` cards (so the hands hold `playerCount × hand_size`
cards in total), and the discard stack is exactly one card which is not a
draw-four. -/
theorem C9_post_construction (deckOrder : List Card) (players : List PlayerId) (hand_size : Nat)
    (choose_color : Color) (shuffle : List Card → List Card) (fuel : Nat) (g : GameState)
    (hperm : deckOrder.Perm standardDeck) (hshuf : ∀ l, (shuffle l).Perm l)
    (h : mkGame deckOrder players hand_size choose_color shuffle fuel = some g) :
    g.hands.length = players.length ∧
    (∀ hd ∈ g.hands, hd.length = hand_size) ∧
    (g.hands.map List.length).sum = players.length * hand_size ∧
    ∃ c : Card, g.game_stack = [c] ∧ ¬(c.value = Value.drawFour) := by
  have hdeck : deckOrder.length = 108 := hperm.length_eq.trans standardDeck_length
  obtain ⟨hn2, hbound, hpl, hhands, hhlen, hsum, hcur, hpend, c, rem, hfind, hdf, hstack,
    hrem, hlen⟩ := mkGame_facts hdeck hshuf h
  refine ⟨hhlen, hhands, hsum, c, hstack, ?_⟩
  intro hv
  rw [show c.is_draw_four = decide (c.value = Value.drawFour) from rfl, hv] at hdf
  simp at hdf

/-- C6 (amended): if the opening discard established at construction is a
draw-two, the pending-draw obligation of 2 is set on the seat one step
ahead of seat 0 — i.e. seat index 1, not the first seat in sorted order —
the turn pointer points at that same obligated seat, and no cards are
auto-drawn (the hands are exactly the dealt hands). -/
theorem C6_amended_start_drawtwo (deckOrder : List Card) (players : List PlayerId)
    (hand_size : Nat) (choose_color : Color) (shuffle : List Card → List Card)
    (fuel : Nat) (g : GameState) (c : Card)
    (h : mkGame deckOrder players hand_size choose_color shuffle fuel = some g)
    (hstack : g.game_stack = [c]) (hv : c.value = Value.drawTwo) :
    g.pending_draw_count = 2 ∧ g.pending_draw_for_index = some 1 ∧
    g.current_index = 1 ∧
    g.hands = dealLoop hand_size (deckOrder.take (players.length * hand_size))
      (List.replicate players.length []) := by
  unfold mkGame at h
  split at h
  · exact absurd h (by simp)
  · rename_i hlt
    obtain ⟨c0, rem, hfind, hpl, hhands, hrem, hstack0, hcurlt, hpend, hdt⟩ :=
      start_discard_spec h (by simp) (by simp; omega)
    have hc0 : c0 = c := by
      rw [hstack0] at hstack
      simpa using hstack
    subst hc0
    have hnx : next_index (startPlacedState (initialState deckOrder players hand_size)
        choose_color c0 rem) 1 = 1 := by
      apply next_index_one_of_zero
      · simp
      · simp
      · simp; omega
    obtain ⟨hp2, hpf, hci⟩ := hdt hv
    refine ⟨hp2, ?_, ?_, ?_⟩
    · rw [hpf, hnx]
    · rw [hci, hnx]
    · rw [hhands]; simp

/-- On a seat that owes a pending draw obligation, a completed `draw` call
(with a card available) decrements the obligation by exactly one. -/
lemma draw_pending_decrement (shuffle : List Card → List Card) (g : GameState)
    (pid : PlayerId) (g' : GameState) (r : Res)
    (hshuf : ∀ l, (shuffle l).Perm l)
    (hn2 : 2 ≤ g.players_list.length)
    (hget : g.players_list.get? g.current_index = some pid)
    (hc : 0 < g.pending_draw_count)
    (hfor : g.pending_draw_for_index = some g.current_index)
    (hpile : g.remaining_cards ≠ [] ∨ g.game_stack.dropLast ≠ [])
    (h : draw shuffle g pid = some (g', r)) :
    g'.pending_draw_count = g.pending_draw_count - 1 ∧ r = Res.success := by
  unfold draw at h
  rw [if_neg (by omega)] at h
  split at h
  · exact absurd h (by simp)
  · rename_i cp hcp
    rw [hget] at hcp
    injection hcp with hcp
    subst hcp
    rw [if_neg (by intro hne; exact hne rfl)] at h
    split at h
    · exact absurd h (by simp)
    · rename_i g1 hg1
      have hf : g1.pending_draw_count = g.pending_draw_count ∧
          g1.pending_draw_for_index = g.pending_draw_for_index ∧
          g1.current_index = g.current_index ∧
          g1.remaining_cards ≠ [] := by
        split at hg1
        · rename_i hre
          obtain ⟨top, htop, heq⟩ := transfer_eq hg1
          refine ⟨by rw [heq], by rw [heq], by rw [heq], ?_⟩
          rw [heq]
          intro hnil
          simp only at hnil
          have hlen := (hshuf g.game_stack.dropLast).length_eq
          rw [hnil] at hlen
          rcases hpile with hp | hp
          · exact hp hre
          · exact hp (List.length_eq_zero.mp hlen.symm)
        · rename_i hre
          injection hg1 with hg1
          subst hg1
          exact ⟨rfl, rfl, rfl, hre⟩
      split at h
      · rename_i heq
        rw [List.getLast?_eq_none_iff] at heq
        exact absurd heq hf.2.2.2
      · rename_i c hcl
        rw [if_pos ⟨by rw [hf.1]; exact hc, by rw [hf.2.1, hf.2.2.1]; exact hfor⟩] at h
        split at h
        · rename_i hone
          simp only [Option.some.injEq, Prod.mk.injEq] at h
          obtain ⟨hg', hr⟩ := h
          subst hg'
          refine ⟨?_, hr.symm⟩
          simp only [advance_turn_pcount]
          rw [hf.1] at hone
          omega
        · rename_i hone
          simp only [Option.some.injEq, Prod.mk.injEq] at h
          obtain ⟨hg', hr⟩ := h
          subst hg'
          exact ⟨by rw [hf.1], hr.symm⟩

/-- C3: a successful draw-two (resp. draw-four) play sets the obligation of
2 (resp. 4) on the seat one step ahead, which becomes the current seat;
any play call by a seat that owes a pending draw obligation is rejected
with no mutation; and each draw call of that seat reduces the obligation
by one, so the obligation is discharged exactly by successive draws. -/
theorem C3_pending_draw_protocol :
    (∀ (shuffle : List Card → List Card) (g : GameState) (pid : PlayerId) (card : Card)
        (cc : Option Color) (uno : Bool) (g' : GameState),
        play shuffle g pid card cc uno = some (g', PlayRes.success) →
        card.value = Value.drawTwo →
        g'.pending_draw_count = 2 ∧ g'.pending_draw_for_index = some (next_index g 1) ∧
          g'.current_index = next_index g 1) ∧
    (∀ (shuffle : List Card → List Card) (g : GameState) (pid : PlayerId) (card : Card)
        (cc : Option Color) (uno : Bool) (g' : GameState),
        play shuffle g pid card cc uno = some (g', PlayRes.success) →
        card.value = Value.drawFour →
        g'.pending_draw_count = 4 ∧ g'.pending_draw_for_index = some (next_index g 1) ∧
          g'.current_index = next_index g 1) ∧
    (∀ (shuffle : List Card → List Card) (g : GameState) (pid : PlayerId) (card : Card)
        (cc : Option Color) (uno : Bool),
        2 ≤ g.players_list.length →
        g.players_list.get? g.current_index = some pid →
        0 < g.pending_draw_count →
        g.pending_draw_for_index = some g.current_index →
        play shuffle g pid card cc uno =
          some (g, PlayRes.rejected (mustDrawMsg g.pending_draw_count))) ∧
    (∀ (shuffle : List Card → List Card) (g : GameState) (pid : PlayerId)
        (g' : GameState) (r : Res),
        (∀ l, (shuffle l).Perm l) →
        2 ≤ g.players_list.length →
        g.players_list.get? g.current_index = some pid →
        0 < g.pending_draw_count →
        g.pending_draw_for_index = some g.current_index →
        (g.remaining_cards ≠ [] ∨ g.game_stack.dropLast ≠ []) →
        draw shuffle g pid = some (g', r) →
        g'.pending_draw_count = g.pending_draw_count - 1 ∧ r = Res.success) := by
  refine ⟨?_, ?_, ?_, ?_⟩
  · intro sh g pid card cc uno g' hp hv
    obtain ⟨g3, hcu, hd, hpl, hg'⟩ := play_success_effect hp
    have heff : applyActionEffect g3 card =
        ({ g3 with pending_draw_count := 2,
                   pending_draw_for_index := some (next_index g3 1) }, 1) := by
      unfold applyActionEffect; rw [hv]; simp
    have hnx : next_index g3 1 = next_index g 1 := next_index_congr _ _ 1 hcu hd hpl
    subst hg'
    rw [heff]
    refine ⟨rfl, ?_, ?_⟩
    · simp only [advance_turn_pfor]
      rw [← hnx]
    · simp only [advance_turn_current]
      exact (next_index_congr _ g3 1 rfl rfl rfl).trans hnx
  · intro sh g pid card cc uno g' hp hv
    obtain ⟨g3, hcu, hd, hpl, hg'⟩ := play_success_effect hp
    have heff : applyActionEffect g3 card =
        ({ g3 with pending_draw_count := 4,
                   pending_draw_for_index := some (next_index g3 1) }, 1) := by
      unfold applyActionEffect; rw [hv]; simp [Card.is_draw_four, hv]
    have hnx : next_index g3 1 = next_index g 1 := next_index_congr _ _ 1 hcu hd hpl
    subst hg'
    rw [heff]
    refine ⟨rfl, ?_, ?_⟩
    · simp only [advance_turn_pfor]
      rw [← hnx]
    · simp only [advance_turn_current]
      exact (next_index_congr _ g3 1 rfl rfl rfl).trans hnx
  · intro sh g pid card cc uno hn2 hget hc hfor
    rw [List.get?_eq_getElem?] at hget
    simp [play, hget, hc, hfor, show ¬(g.players_list.length < 2) by omega]
  · intro sh g pid g' r hshuf hn2 hget hc hfor hpile h
    exact draw_pending_decrement sh g pid g' r hshuf hn2 hget hc hfor hpile h

/-! ## Concrete states for witnesses and counterexamples -/

/-- An inert default state, only used as the `Option.getD` fallback when
naming concretely computed states. -/
def emptyGame : GameState :=
  { players_list := [], hands := [], current_index := 0, direction := 1,
    current_color := none, pending_draw_count := 0, pending_draw_for_index := none,
    remaining_cards := [], game_stack := [] }

/-- The identity function used as a (trivially valid) shuffle outcome. -/
def idShuffle : List Card → List Card := fun l => l

lemma idShuffle_perm : ∀ l, (idShuffle l).Perm l := fun l => List.Perm.refl l

/-- The game constructed from the unshuffled standard deck with two players
and hand size 7 (the opening discard is the deck's final wild card). -/
def baseGame : GameState :=
  (mkGame standardDeck ["player-a", "player-b"] 7 Color.red idShuffle 1).getD emptyGame

lemma baseGame_mk :
    mkGame standardDeck ["player-a", "player-b"] 7 Color.red idShuffle 1 = some baseGame :=
  rfl

lemma baseGame_reachable : Reachable baseGame :=
  Reachable.init standardDeck ["player-a", "player-b"] 7 Color.red idShuffle 1 baseGame
    (List.Perm.refl _) idShuffle_perm (by decide) baseGame_mk

def redDrawTwo : Card := ⟨Color.red, Value.drawTwo⟩

/-- A permutation of the standard deck whose last card (the one popped for
the opening discard) is a red draw-two. -/
def dtDeck : List Card := (standardDeck.erase redDrawTwo) ++ [redDrawTwo]

lemma dtDeck_perm : dtDeck.Perm standardDeck := by
  have hmem : redDrawTwo ∈ standardDeck := by decide
  exact (List.perm_append_singleton redDrawTwo (standardDeck.erase redDrawTwo)).trans
    (List.perm_cons_erase hmem).symm

/-- The game constructed from `dtDeck` with two players and hand size 1:
its opening discard is the red draw-two. -/
def dtGame : GameState :=
  (mkGame dtDeck ["player-a", "player-b"] 1 Color.red idShuffle 1).getD emptyGame

lemma dtGame_mk :
    mkGame dtDeck ["player-a", "player-b"] 1 Color.red idShuffle 1 = some dtGame :=
  rfl

lemma dtGame_reachable : Reachable dtGame :=
  Reachable.init dtDeck ["player-a", "player-b"] 1 Color.red idShuffle 1 dtGame
    dtDeck_perm idShuffle_perm (by decide) dtGame_mk

/-- C2: card conservation — every state reachable from a successful
construction through `draw`/`play` has `|draw pile| + |discard stack| +
total hand cards = 108`. -/
theorem C2_card_conservation (g : GameState) (h : Reachable g) : totalCards g = 108 :=
  (reachable_inv h).total

theorem C2_card_conservation_witness : totalCards baseGame = 108 :=
  C2_card_conservation baseGame baseGame_reachable

/-- C10: in every reachable state with a positive pending-draw obligation,
the obligated seat is exactly the current seat, so only the
draw-resolution branch of `draw` is reachable while an obligation is
outstanding. -/
theorem C10_pending_owner_is_current (g : GameState) (h : Reachable g)
    (hc : 0 < g.pending_draw_count) :
    g.pending_draw_for_index = some g.current_index :=
  (reachable_inv h).pending hc

theorem C10_pending_owner_is_current_witness :
    0 < dtGame.pending_draw_count ∧
      dtGame.pending_draw_for_index = some dtGame.current_index :=
  ⟨by decide, C10_pending_owner_is_current dtGame dtGame_reachable (by decide)⟩

/-- The pre-state for the C1 failing input: the current player holds a
single black wild card, the pending state is clear and the wild is legal
to play. -/
def c1pre : GameState :=
  { players_list := ["player-a", "player-b"],
    hands := [[⟨Color.black, Value.wild⟩], [⟨Color.red, Value.num 5⟩]],
    current_index := 0, direction := 1, current_color := some Color.green,
    pending_draw_count := 0, pending_draw_for_index := none,
    remaining_cards := [⟨Color.green, Value.num 7⟩],
    game_stack := [⟨Color.green, Value.num 3⟩] }

/-- The state actually produced by the rejected call of C1: the wild card
has left the hand and sits on top of the discard stack. -/
def c1post : GameState :=
  { c1pre with hands := [[], [⟨Color.red, Value.num 5⟩]],
               game_stack := [⟨Color.green, Value.num 3⟩, ⟨Color.black, Value.wild⟩] }

/-- C1: evaluation of the code at the failing input.  Playing a black wild
with `chosen_color = None` is rejected (`please choose a color…`), yet the
post state differs from the pre state: the card was removed from the hand
and appended to the stack before the `chosen_color` validation, so this
rejection path is not atomic (the other tracked fields stay unchanged). -/
theorem C1_black_rejection_mutates :
    play idShuffle c1pre "player-a" ⟨Color.black, Value.wild⟩ none true =
      some (c1post, PlayRes.rejected chooseColorMsg) ∧
    c1post.hands ≠ c1pre.hands ∧
    c1post.game_stack ≠ c1pre.game_stack ∧
    c1post.current_color = c1pre.current_color ∧
    c1post.current_index = c1pre.current_index ∧
    c1post.remaining_cards = c1pre.remaining_cards ∧
    c1post.pending_draw_count = c1pre.pending_draw_count ∧
    c1post.pending_draw_for_index = c1pre.pending_draw_for_index := by
  refine ⟨by decide, by decide, by decide, by decide, by decide, by decide, by decide,
    by decide⟩

/-- C6 counterexample: a construction whose opening discard is a draw-two
does not place the obligation on the first seat in sorted order (seat 0):
the code places it on seat 1 and moves the turn there. -/
theorem C6_counterexample :
    mkGame dtDeck ["player-a", "player-b"] 1 Color.red idShuffle 1 = some dtGame ∧
    dtGame.game_stack = [redDrawTwo] ∧ redDrawTwo.value = Value.drawTwo ∧
    ¬(dtGame.pending_draw_for_index = some 0) ∧ ¬(dtGame.current_index = 0) ∧
    dtGame.pending_draw_for_index = some 1 ∧ dtGame.current_index = 1 := by
  refine ⟨rfl, by decide, rfl, by decide, by decide, by decide, by decide⟩

theorem C6_amended_start_drawtwo_witness :
    dtGame.pending_draw_count = 2 ∧ dtGame.pending_draw_for_index = some 1 ∧
    dtGame.current_index = 1 ∧
    dtGame.hands = dealLoop 1
      (dtDeck.take ((["player-a", "player-b"] : List PlayerId).length * 1))
      (List.replicate (["player-a", "player-b"] : List PlayerId).length []) :=
  C6_amended_start_drawtwo dtDeck ["player-a", "player-b"] 1 Color.red idShuffle 1 dtGame
    redDrawTwo dtGame_mk (by decide) rfl

theorem C9_post_construction_witness :
    baseGame.hands.length = (["player-a", "player-b"] : List PlayerId).length ∧
    (∀ hd ∈ baseGame.hands, hd.length = 7) ∧
    (baseGame.hands.map List.length).sum =
      (["player-a", "player-b"] : List PlayerId).length * 7 ∧
    ∃ c : Card, baseGame.game_stack = [c] ∧ ¬(c.value = Value.drawFour) :=
  C9_post_construction standardDeck ["player-a", "player-b"] 7 Color.red idShuffle 1
    baseGame (List.Perm.refl _) idShuffle_perm baseGame_mk

/-- Pre-state for the C3 draw-two witness: the current player plays a red
draw-two (UNO called, so no penalty draw interferes). -/
def w3a : GameState :=
  { players_list := ["player-a", "player-b"],
    hands := [[⟨Color.red, Value.drawTwo⟩, ⟨Color.blue, Value.num 5⟩],
              [⟨Color.green, Value.num 1⟩]],
    current_index := 0, direction := 1, current_color := some Color.red,
    pending_draw_count := 0, pending_draw_for_index := none,
    remaining_cards := [⟨Color.yellow, Value.num 2⟩],
    game_stack := [⟨Color.red, Value.num 3⟩] }

def w3aPost : GameState :=
  ((play idShuffle w3a "player-a" ⟨Color.red, Value.drawTwo⟩ none true).getD
    (emptyGame, PlayRes.success)).1

/-- Pre-state for the C3 draw-four witness: no other non-black card of the
current color is held, and a valid color is chosen. -/
def w3b : GameState :=
  { players_list := ["player-a", "player-b"],
    hands := [[⟨Color.black, Value.drawFour⟩, ⟨Color.blue, Value.num 5⟩],
              [⟨Color.green, Value.num 1⟩]],
    current_index := 0, direction := 1, current_color := some Color.red,
    pending_draw_count := 0, pending_draw_for_index := none,
    remaining_cards := [⟨Color.yellow, Value.num 2⟩],
    game_stack := [⟨Color.red, Value.num 3⟩] }

def w3bPost : GameState :=
  ((play idShuffle w3b "player-a" ⟨Color.black, Value.drawFour⟩ (some Color.blue) true).getD
    (emptyGame, PlayRes.success)).1

/-- Pre-state for the C3 rejection witness: the current seat owes one
pending card. -/
def w3c : GameState :=
  { players_list := ["player-a", "player-b"],
    hands := [[⟨Color.red, Value.num 5⟩], [⟨Color.green, Value.num 1⟩]],
    current_index := 0, direction := 1, current_color := some Color.red,
    pending_draw_count := 1, pending_draw_for_index := some 0,
    remaining_cards := [⟨Color.yellow, Value.num 2⟩],
    game_stack := [⟨Color.red, Value.num 3⟩] }

/-- Pre-state for the C3 decrement witness: the current seat owes two
pending cards and draws one. -/
def w3d : GameState :=
  { players_list := ["player-a", "player-b"],
    hands := [[⟨Color.red, Value.num 5⟩], [⟨Color.green, Value.num 1⟩]],
    current_index := 0, direction := 1, current_color := some Color.red,
    pending_draw_count := 2, pending_draw_for_index := some 0,
    remaining_cards := [⟨Color.yellow, Value.num 2⟩, ⟨Color.yellow, Value.num 3⟩],
    game_stack := [⟨Color.red, Value.num 3⟩] }

def w3dPost : GameState × Res :=
  (draw idShuffle w3d "player-a").getD (emptyGame, Res.success)

theorem C3_pending_draw_protocol_witness :
    (w3aPost.pending_draw_count = 2 ∧
      w3aPost.pending_draw_for_index = some (next_index w3a 1) ∧
      w3aPost.current_index = next_index w3a 1) ∧
    (w3bPost.pending_draw_count = 4 ∧
      w3bPost.pending_draw_for_index = some (next_index w3b 1) ∧
      w3bPost.current_index = next_index w3b 1) ∧
    play idShuffle w3c "player-a" ⟨Color.red, Value.num 5⟩ none true =
      some (w3c, PlayRes.rejected (mustDrawMsg w3c.pending_draw_count)) ∧
    (w3dPost.1.pending_draw_count = w3d.pending_draw_count - 1 ∧
      w3dPost.2 = Res.success) :=
  ⟨C3_pending_draw_protocol.1 idShuffle w3a "player-a" ⟨Color.red, Value.drawTwo⟩ none true
      w3aPost (by decide) rfl,
    C3_pending_draw_protocol.2.1 idShuffle w3b "player-a" ⟨Color.black, Value.drawFour⟩
      (some Color.blue) true w3bPost (by decide) rfl,
    C3_pending_draw_protocol.2.2.1 idShuffle w3c "player-a" ⟨Color.red, Value.num 5⟩ none true
      (by decide) (by decide) (by decide) (by decide),
    C3_pending_draw_protocol.2.2.2 idShuffle w3d "player-a" w3dPost.1 w3dPost.2
      idShuffle_perm (by decide) (by decide) (by decide) (by decide) (by decide) rfl⟩

/-- Pre-state for the C7 two-player witness. -/
def w7a : GameState :=
  { players_list := ["player-a", "player-b"],
    hands := [[⟨Color.red, Value.reverse⟩, ⟨Color.blue, Value.num 5⟩],
              [⟨Color.green, Value.num 1⟩]],
    current_index := 0, direction := 1, current_color := some Color.red,
    pending_draw_count := 0, pending_draw_for_index := none,
    remaining_cards := [⟨Color.yellow, Value.num 2⟩],
    game_stack := [⟨Color.red, Value.num 3⟩] }

def w7aPost : GameState :=
  ((play idShuffle w7a "player-a" ⟨Color.red, Value.reverse⟩ none true).getD
    (emptyGame, PlayRes.success)).1

/-- Pre-state for the C7 three-player witness. -/
def w7b : GameState :=
  { players_list := ["player-a", "player-b", "player-c"],
    hands := [[⟨Color.red, Value.reverse⟩, ⟨Color.blue, Value.num 5⟩],
              [⟨Color.green, Value.num 1⟩], [⟨Color.yellow, Value.num 1⟩]],
    current_index := 0, direction := 1, current_color := some Color.red,
    pending_draw_count := 0, pending_draw_for_index := none,
    remaining_cards := [⟨Color.yellow, Value.num 2⟩],
    game_stack := [⟨Color.red, Value.num 3⟩] }

def w7bPost : GameState :=
  ((play idShuffle w7b "player-a" ⟨Color.red, Value.reverse⟩ none true).getD
    (emptyGame, PlayRes.success)).1

theorem C7_reverse_play_witness :
    (w7aPost.current_index = next_index w7a 2 ∧
      w7aPost.current_index = w7a.current_index ∧ w7aPost.direction = w7a.direction) ∧
    (w7bPost.direction = -w7b.direction ∧
      w7bPost.current_index =
        (((w7b.current_index : Int) + 1 * (-w7b.direction)) %
          (w7b.players_list.length : Int)).toNat ∧
      w7bPost.current_index < w7b.players_list.length) :=
  ⟨(C7_reverse_play idShuffle w7a "player-a" ⟨Color.red, Value.reverse⟩ none true w7aPost
      (by decide) rfl (by decide)).1 rfl,
    (C7_reverse_play idShuffle w7b "player-a" ⟨Color.red, Value.reverse⟩ none true w7bPost
      (by decide) rfl (by decide)).2 (by decide)⟩

/-- Pre-state for the C8 witness: a voluntary draw with a non-empty pile;
the drawn red 7 is playable, so the turn stays. -/
def w8 : GameState :=
  { players_list := ["player-a", "player-b"],
    hands := [[⟨Color.blue, Value.num 5⟩], [⟨Color.green, Value.num 1⟩]],
    current_index := 0, direction := 1, current_color := some Color.red,
    pending_draw_count := 0, pending_draw_for_index := none,
    remaining_cards := [⟨Color.red, Value.num 7⟩],
    game_stack := [⟨Color.red, Value.num 3⟩] }

theorem C8_voluntary_draw_witness :
    ∃ (c top : Card),
      (if w8.remaining_cards = [] then idShuffle w8.game_stack.dropLast
       else w8.remaining_cards).getLast? = some c ∧
      w8.game_stack.getLast? = some top ∧
      ∃ g' : GameState, draw idShuffle w8 "player-a" = some (g', Res.success) ∧
        g'.hands = modifyIdx w8.hands w8.current_index (fun h => h ++ [c]) ∧
        g'.remaining_cards =
          (if w8.remaining_cards = [] then idShuffle w8.game_stack.dropLast
           else w8.remaining_cards).dropLast ∧
        (can_play_card w8.current_color c top = true → g'.current_index = w8.current_index) ∧
        (can_play_card w8.current_color c top = false → g'.current_index = next_index w8 1) :=
  C8_voluntary_draw idShuffle w8 "player-a" idShuffle_perm (by decide) (by decide)
    (by decide) (by decide) (by decide)
/-! ## Card wellformedness: every card in play is a deck card, so a
draw-four or wild value implies the black color -/

/-- In the 108-card deck the values `draw-four` and `wild` appear only on
black cards; this is the per-card consequence used by the scoring claim. -/
def cardWf (c : Card) : Prop :=
  (c.value = Value.drawFour ∨ c.value = Value.wild) → c.color = Color.black

/-- All cards of the three containers are wellformed. -/
def allWf (g : GameState) : Prop :=
  (∀ c ∈ g.remaining_cards, cardWf c) ∧ (∀ c ∈ g.game_stack, cardWf c) ∧
    (∀ hd ∈ g.hands, ∀ c ∈ hd, cardWf c)

lemma standardDeck_wf : ∀ c ∈ standardDeck, cardWf c := by
  have h : ∀ c ∈ standardDeck,
      (c.value = Value.drawFour ∨ c.value = Value.wild) → c.color = Color.black := by decide
  exact h

lemma mem_of_getLast?_eq {l : List Card} {a : Card} (h : l.getLast? = some a) : a ∈ l := by
  obtain ⟨hne, heq⟩ := List.mem_getLast?_eq_getLast (l := l) (x := a) (by simp [h])
  rw [heq]
  exact List.getLast_mem hne

lemma eraseFirst_subset (l : List Card) (x : Card) : ∀ c ∈ eraseFirst l x, c ∈ l := by
  induction l with
  | nil => intro c hc; simp [eraseFirst] at hc
  | cons a as ih =>
    intro c hc
    by_cases hax : a = x
    · simp only [eraseFirst, if_pos hax] at hc
      exact List.mem_cons_of_mem a hc
    · simp only [eraseFirst, if_neg hax, List.mem_cons] at hc
      rcases hc with hc | hc
      · exact hc ▸ List.mem_cons_self a as
      · exact List.mem_cons_of_mem a (ih c hc)

lemma mem_modifyIdx {f : List Card → List Card} :
    ∀ {l : List (List Card)} {i : Nat} {hd : List Card},
      hd ∈ modifyIdx l i f → hd ∈ l ∨ hd = f (l.getD i []) := by
  intro l
  induction l with
  | nil => intro i hd h; simp [modifyIdx] at h
  | cons a as ih =>
    intro i hd h
    cases i with
    | zero =>
      simp only [modifyIdx, List.mem_cons] at h
      rcases h with h | h
      · right; exact h
      · left; exact List.mem_cons_of_mem a h
    | succ n =>
      simp only [modifyIdx, List.mem_cons] at h
      rcases h with h | h
      · left; exact h ▸ List.mem_cons_self a as
      · rcases ih h with h1 | h1
        · left; exact List.mem_cons_of_mem a h1
        · right; simpa using h1

lemma transfer_wf {shuffle : List Card → List Card} {g g' : GameState}
    (hshuf : ∀ l, (shuffle l).Perm l) (hwf : allWf g)
    (h : transfer_played_cards shuffle g = some g') : allWf g' := by
  obtain ⟨top, htop, heq⟩ := transfer_eq h
  subst heq
  refine ⟨?_, ?_, hwf.2.2⟩
  · intro c hc
    exact hwf.2.1 c (List.dropLast_subset g.game_stack ((hshuf _).mem_iff.mp hc))
  · intro c hc
    simp only [List.mem_singleton] at hc
    exact hc ▸ hwf.2.1 top (mem_of_getLast?_eq htop)

lemma drawnState_wf {g : GameState} {c : Card} (hwf : allWf g)
    (hc : g.remaining_cards.getLast? = some c) : allWf (drawnState g c) := by
  refine ⟨?_, hwf.2.1, ?_⟩
  · intro x hx
    exact hwf.1 x (List.dropLast_subset g.remaining_cards hx)
  · intro hd hhd x hx
    rcases mem_modifyIdx hhd with h1 | h1
    · exact hwf.2.2 hd h1 x hx
    · subst h1
      rcases List.mem_append.mp hx with h2 | h2
      · by_cases hi : g.current_index < g.hands.length
        · rw [List.getD_eq_getElem g.hands [] hi] at h2
          exact hwf.2.2 _ (List.getElem_mem hi) x h2
        · rw [getD_eq_default_of_le g.hands [] _ (by omega)] at h2
          simp at h2
      · simp only [List.mem_singleton] at h2
        exact h2 ▸ hwf.1 c (mem_of_getLast?_eq hc)

lemma draw_n_wf {shuffle : List Card → List Card} (hshuf : ∀ l, (shuffle l).Perm l)
    {i : Nat} : ∀ {n : Nat} {g g' : GameState}, draw_n shuffle i n g = some g' →
      allWf g → allWf g' := by
  intro n
  induction n with
  | zero =>
    intro g g' h hwf
    unfold draw_n at h
    injection h with h
    exact h ▸ hwf
  | succ m ih =>
    intro g g' h hwf
    unfold draw_n at h
    split at h
    · exact absurd h (by simp)
    · rename_i g1 hg1
      have hwf1 : allWf g1 := by
        split at hg1
        · exact transfer_wf hshuf hwf hg1
        · injection hg1 with hg1; exact hg1 ▸ hwf
      split at h
      · injection h with h; exact h ▸ hwf1
      · rename_i c hcl
        refine ih h ?_
        have hd1 : allWf (drawnState g1 c) := drawnState_wf hwf1 hcl
        refine ⟨hd1.1, hd1.2.1, ?_⟩
        intro hd hhd x hx
        rcases mem_modifyIdx hhd with h1 | h1
        · exact hwf1.2.2 hd h1 x hx
        · subst h1
          rcases List.mem_append.mp hx with h2 | h2
          · by_cases hj : i < g1.hands.length
            · rw [List.getD_eq_getElem g1.hands [] hj] at h2
              exact hwf1.2.2 _ (List.getElem_mem hj) x h2
            · rw [getD_eq_default_of_le g1.hands [] _ (by omega)] at h2
              simp at h2
          · simp only [List.mem_singleton] at h2
            exact h2 ▸ hwf1.1 c (mem_of_getLast?_eq hcl)
lemma draw_wf {shuffle : List Card → List Card} {g : GameState} {pid : PlayerId}
    {g' : GameState} {r : Res} (hshuf : ∀ l, (shuffle l).Perm l)
    (hwf : allWf g) (h : draw shuffle g pid = some (g', r)) : allWf g' := by
  unfold draw at h
  split at h
  · exact absurd h (by simp)
  · split at h
    · exact absurd h (by simp)
    · rename_i current_player hcp
      split at h
      · simp only [Option.some.injEq, Prod.mk.injEq] at h
        exact h.1 ▸ hwf
      · split at h
        · exact absurd h (by simp)
        · rename_i g1 hg1
          have hwf1 : allWf g1 := by
            split at hg1
            · exact transfer_wf hshuf hwf hg1
            · injection hg1 with hg1; exact hg1 ▸ hwf
          split at h
          · simp only [Option.some.injEq, Prod.mk.injEq] at h
            exact h.1 ▸ hwf1
          · rename_i new_card hnc
            have hwf2 : allWf (drawnState g1 new_card) := drawnState_wf hwf1 hnc
            split at h
            · split at h
              · simp only [Option.some.injEq, Prod.mk.injEq] at h
                exact h.1 ▸ hwf2
              · simp only [Option.some.injEq, Prod.mk.injEq] at h
                exact h.1 ▸ hwf2
            · split at h
              · exact absurd h (by simp)
              · split at h
                · simp only [Option.some.injEq, Prod.mk.injEq] at h
                  exact h.1 ▸ hwf2
                · simp only [Option.some.injEq, Prod.mk.injEq] at h
                  exact h.1 ▸ hwf2

lemma playCommitState_wf {g : GameState} {card : Card} (hwf : allWf g)
    (hmem : card ∈ g.hands.getD g.current_index []) : allWf (playCommitState g card) := by
  have hcardwf : cardWf card := by
    by_cases hi : g.current_index < g.hands.length
    · rw [List.getD_eq_getElem g.hands [] hi] at hmem
      exact hwf.2.2 _ (List.getElem_mem hi) card hmem
    · rw [getD_eq_default_of_le g.hands [] _ (by omega)] at hmem
      simp at hmem
  refine ⟨hwf.1, ?_, ?_⟩
  · intro c hc
    rcases List.mem_append.mp hc with h1 | h1
    · exact hwf.2.1 c h1
    · simp only [List.mem_singleton] at h1
      exact h1 ▸ hcardwf
  · intro hd hhd c hc
    rcases mem_modifyIdx hhd with h1 | h1
    · exact hwf.2.2 hd h1 c hc
    · subst h1
      have hsub := eraseFirst_subset (g.hands.getD g.current_index []) card c hc
      by_cases hi : g.current_index < g.hands.length
      · rw [List.getD_eq_getElem g.hands [] hi] at hsub
        exact hwf.2.2 _ (List.getElem_mem hi) c hsub
      · rw [getD_eq_default_of_le g.hands [] _ (by omega)] at hsub
        simp at hsub

lemma playColorState_wf {g : GameState} {card : Card} {cc : Option Color} (hwf : allWf g)
    (hmem : card ∈ g.hands.getD g.current_index []) : allWf (playColorState g card cc) := by
  have h1 := playCommitState_wf hwf hmem
  unfold playColorState
  split
  · exact h1
  · exact h1

lemma applyActionEffect_wf {g : GameState} {card : Card} (hwf : allWf g) :
    allWf (applyActionEffect g card).1 := by
  unfold applyActionEffect
  split
  · exact hwf
  · split
    · split
      · exact hwf
      · exact hwf
    · split
      · exact hwf
      · split
        · exact hwf
        · exact hwf

lemma play_wf {shuffle : List Card → List Card} {g : GameState} {pid : PlayerId}
    {card : Card} {cc : Option Color} {uno : Bool} {g' : GameState} {r : PlayRes}
    (hshuf : ∀ l, (shuffle l).Perm l)
    (hwf : allWf g) (h : play shuffle g pid card cc uno = some (g', r)) : allWf g' := by
  unfold play at h
  split at h
  · exact absurd h (by simp)
  · split at h
    · exact absurd h (by simp)
    · rename_i current_player hcp
      split at h
      · simp only [Option.some.injEq, Prod.mk.injEq] at h
        exact h.1 ▸ hwf
      · split at h
        · simp only [Option.some.injEq, Prod.mk.injEq] at h
          exact h.1 ▸ hwf
        · split at h
          · rename_i hmem
            split at h
            · exact absurd h (by simp)
            · rename_i top htop
              split at h
              · simp only [Option.some.injEq, Prod.mk.injEq] at h
                exact h.1 ▸ hwf
              · split at h
                · simp only [Option.some.injEq, Prod.mk.injEq] at h
                  exact h.1 ▸ hwf
                · unfold playCommit at h
                  split at h
                  · simp only [Option.some.injEq, Prod.mk.injEq] at h
                    exact h.1 ▸ playCommitState_wf hwf hmem
                  · split at h
                    · exact absurd h (by simp)
                    · rename_i g3 hg3
                      have hwf3 : allWf g3 := by
                        split at hg3
                        · exact draw_n_wf hshuf hg3 (playColorState_wf hwf hmem)
                        · injection hg3 with hg3
                          exact hg3 ▸ playColorState_wf hwf hmem
                      split at h
                      · simp only [Option.some.injEq, Prod.mk.injEq] at h
                        exact h.1 ▸ hwf3
                      · simp only [Option.some.injEq, Prod.mk.injEq] at h
                        exact h.1 ▸ applyActionEffect_wf hwf3
          · exact absurd h (by simp)
lemma findStartCard_mem {shuffle : List Card → List Card}
    (hshuf : ∀ l, (shuffle l).Perm l) :
    ∀ {fuel : Nat} {rem rem' : List Card} {c : Card},
      findStartCard shuffle fuel rem = some (c, rem') →
      ∀ x, (x = c ∨ x ∈ rem') → x ∈ rem := by
  intro fuel
  induction fuel with
  | zero => intro rem rem' c h; exact absurd h (by simp [findStartCard])
  | succ m ih =>
    intro rem rem' c h x hx
    unfold findStartCard at h
    split at h
    · exact absurd h (by simp)
    · rename_i c0 hc0
      split at h
      · have hmem := ih h x hx
        have hmem2 := (hshuf (c0 :: rem.dropLast)).mem_iff.mp hmem
        rcases List.mem_cons.mp hmem2 with h1 | h1
        · exact h1 ▸ mem_of_getLast?_eq hc0
        · exact List.dropLast_subset rem h1
      · simp only [Option.some.injEq, Prod.mk.injEq] at h
        obtain ⟨hc, hr⟩ := h
        subst hc; subst hr
        rcases hx with h1 | h1
        · exact h1 ▸ mem_of_getLast?_eq hc0
        · exact List.dropLast_subset rem h1

lemma dealRound_rest_subset : ∀ (hs : List (List Card)) (cs : List Card),
    ∀ c ∈ (dealRound cs hs).1, c ∈ cs := by
  intro hs
  induction hs with
  | nil => intro cs c hc; simpa [dealRound] using hc
  | cons hd tl ih =>
    intro cs c hc
    cases cs with
    | nil => simp [dealRound] at hc
    | cons a as =>
      simp only [dealRound] at hc
      exact List.mem_cons_of_mem a (ih as c hc)

lemma dealRound_hand_mem : ∀ (hs : List (List Card)) (cs : List Card),
    ∀ hd ∈ (dealRound cs hs).2, ∀ c ∈ hd, (∃ hd0 ∈ hs, c ∈ hd0) ∨ c ∈ cs := by
  intro hs
  induction hs with
  | nil => intro cs hd hhd; simp [dealRound] at hhd
  | cons h0 tl ih =>
    intro cs hd hhd c hc
    cases cs with
    | nil =>
      simp only [dealRound] at hhd
      exact Or.inl ⟨hd, hhd, hc⟩
    | cons a as =>
      simp only [dealRound, List.mem_cons] at hhd
      rcases hhd with hhd | hhd
      · subst hhd
        rcases List.mem_append.mp hc with h1 | h1
        · exact Or.inl ⟨h0, List.mem_cons_self h0 tl, h1⟩
        · simp only [List.mem_singleton] at h1
          exact Or.inr (h1 ▸ List.mem_cons_self a as)
      · rcases ih as hd hhd c hc with h1 | h1
        · obtain ⟨hd0, hhd0, hchd0⟩ := h1
          exact Or.inl ⟨hd0, List.mem_cons_of_mem h0 hhd0, hchd0⟩
        · exact Or.inr (List.mem_cons_of_mem a h1)

lemma dealLoop_hand_mem : ∀ (m : Nat) (cs : List Card) (hs : List (List Card)),
    ∀ hd ∈ dealLoop m cs hs, ∀ c ∈ hd, (∃ hd0 ∈ hs, c ∈ hd0) ∨ c ∈ cs := by
  intro m
  induction m with
  | zero => intro cs hs hd hhd c hc; exact Or.inl ⟨hd, hhd, hc⟩
  | succ p ih =>
    intro cs hs hd hhd c hc
    cases cs with
    | nil =>
      simp only [dealLoop] at hhd
      exact Or.inl ⟨hd, hhd, hc⟩
    | cons a as =>
      simp only [dealLoop] at hhd
      rcases ih _ _ hd hhd c hc with h1 | h1
      · obtain ⟨hd0, hhd0, hchd0⟩ := h1
        rcases dealRound_hand_mem hs (a :: as) hd0 hhd0 c hchd0 with h2 | h2
        · exact Or.inl h2
        · exact Or.inr h2
      · exact Or.inr (dealRound_rest_subset hs (a :: as) c h1)

lemma mkGame_wf {deckOrder : List Card} {players : List PlayerId} {hand_size : Nat}
    {choose_color : Color} {shuffle : List Card → List Card} {fuel : Nat} {g : GameState}
    (hperm : deckOrder.Perm standardDeck) (hshuf : ∀ l, (shuffle l).Perm l)
    (h : mkGame deckOrder players hand_size choose_color shuffle fuel = some g) :
    allWf g := by
  have hdeckwf : ∀ c ∈ deckOrder, cardWf c := by
    intro c hc
    exact standardDeck_wf c (hperm.mem_iff.mp hc)
  have h0wf : allWf (initialState deckOrder players hand_size) := by
    refine ⟨?_, ?_, ?_⟩
    · intro c hc
      exact hdeckwf c (List.drop_subset _ deckOrder hc)
    · intro c hc
      simp at hc
    · intro hd hhd c hc
      rcases dealLoop_hand_mem hand_size _ _ hd hhd c hc with h1 | h1
      · obtain ⟨hd0, hhd0, hchd0⟩ := h1
        rw [List.eq_of_mem_replicate hhd0] at hchd0
        simp at hchd0
      · exact hdeckwf c (List.take_subset _ deckOrder h1)
  unfold mkGame at h
  split at h
  · exact absurd h (by simp)
  · unfold start_discard at h
    split at h
    · exact absurd h (by simp)
    · rename_i p c rem hfind
      have hstart : allWf (startPlacedState (initialState deckOrder players hand_size)
          choose_color c rem) := by
        refine ⟨?_, ?_, h0wf.2.2⟩
        · intro x hx
          simp only [startPlacedState_remaining] at hx
          exact h0wf.1 x (findStartCard_mem hshuf hfind x (Or.inr hx))
        · intro x hx
          simp only [startPlacedState_stack, initialState_stack, List.nil_append,
            List.mem_singleton] at hx
          exact hx ▸ h0wf.1 c (findStartCard_mem hshuf hfind c (Or.inl rfl))
      split at h
      · injection h with h
        exact h ▸ hstart
      · split at h
        · split at h
          · injection h with h
            exact h ▸ hstart
          · injection h with h
            exact h ▸ hstart
        · split at h
          · injection h with h
            exact h ▸ hstart
          · injection h with h
            exact h ▸ hstart

lemma reachable_wf {g : GameState} (h : Reachable g) : allWf g := by
  induction h with
  | init d p hsz cc sh fuel g hperm hshuf hnd hmk => exact mkGame_wf hperm hshuf hmk
  | drawStep sh g pid g' r hshuf hg hstep ih => exact draw_wf hshuf ih hstep
  | playStep sh g pid card cc uno g' r hshuf hg hstep ih => exact play_wf hshuf ih hstep

/-- C4: in every reachable state, when the current player successfully
plays the last card of their hand, the call reports exactly one `on_game_over(WON, player)` invocation
(the `PlayRes.gameOver` result), the turn pointer, direction, pending
fields and draw pile are untouched (no action effect is processed), and
the reported score is the spec formula `specScore`: over all non-winning
seats, digits count their value, draw-two/reverse/skip count 20, black
cards count 50. -/
theorem C4_winning_play (shuffle : List Card → List Card) (g : GameState) (pid : PlayerId)
    (card : Card) (cc : Option Color) (uno : Bool) (g' : GameState) (res : PlayRes)
    (h : play shuffle g pid card cc uno = some (g', res))
    (hres : ∀ m, res ≠ PlayRes.rejected m)
    (hlen1 : (g.hands.getD g.current_index []).length = 1)
    (hg : Reachable g) :
    res = PlayRes.gameOver GameOverReason.WON pid (specScore g g.current_index) ∧
    g'.current_index = g.current_index ∧ g'.direction = g.direction ∧
    g'.pending_draw_count = g.pending_draw_count ∧
    g'.pending_draw_for_index = g.pending_draw_for_index ∧
    g'.remaining_cards = g.remaining_cards := by
  have hbk : ∀ hd ∈ g.hands, ∀ c ∈ hd,
      (c.value = Value.drawFour ∨ c.value = Value.wild) → c.color = Color.black :=
    fun hd hhd c hc hv => (reachable_wf hg).2.2 hd hhd c hc hv
  have hwf : ∀ j : Nat, ∀ c ∈ g.hands.getD j [],
      (c.value = Value.drawFour ∨ c.value = Value.wild) → c.color = Color.black := by
    intro j c hcmem hv
    by_cases hj : j < g.hands.length
    · rw [List.getD_eq_getElem g.hands [] hj] at hcmem
      exact hbk _ (List.getElem_mem hj) c hcmem hv
    · rw [getD_eq_default_of_le g.hands [] j (by omega)] at hcmem
      simp at hcmem
  unfold play at h
  split at h
  · exact absurd h (by simp)
  · split at h
    · exact absurd h (by simp)
    · rename_i current_player hcp
      split at h
      · simp only [Option.some.injEq, Prod.mk.injEq] at h
        exact (hres _ h.2.symm).elim
      · rename_i hpid
        split at h
        · simp only [Option.some.injEq, Prod.mk.injEq] at h
          exact (hres _ h.2.symm).elim
        · split at h
          · rename_i hmem
            split at h
            · exact absurd h (by simp)
            · rename_i top htop
              split at h
              · simp only [Option.some.injEq, Prod.mk.injEq] at h
                exact (hres _ h.2.symm).elim
              · split at h
                · simp only [Option.some.injEq, Prod.mk.injEq] at h
                  exact (hres _ h.2.symm).elim
                · -- the commit path
                  obtain ⟨a, hhand⟩ := List.length_eq_one.mp hlen1
                  have hac : card = a := by
                    rw [hhand] at hmem
                    simpa using hmem
                  subst hac
                  have herase : eraseFirst (g.hands.getD g.current_index []) card = [] := by
                    rw [hhand]
                    simp [eraseFirst]
                  have hcurlt : g.current_index < g.hands.length := by
                    apply lt_length_of_getD_ne
                    rw [hhand]
                    simp
                  unfold playCommit at h
                  split at h
                  · simp only [Option.some.injEq, Prod.mk.injEq] at h
                    exact (hres _ h.2.symm).elim
                  · rw [herase] at h
                    rw [if_neg (by simp)] at h
                    have hwin : (playColorState g card cc).hands.getD
                        (playColorState g card cc).current_index [] = [] := by
                      simp only [playColorState_hands, playColorState_current,
                        playCommitState_hands, herase]
                      exact getD_modifyIdx_self g.hands g.current_index _ [] hcurlt
                    split at h
                    · exact absurd h (by simp)
                    · rename_i g3 heq
                      injection heq with heq
                      subst heq
                      rw [if_pos (by rw [hwin]; rfl)] at h
                      simp only [Option.some.injEq, Prod.mk.injEq] at h
                      obtain ⟨hg', hres'⟩ := h
                      subst hg'
                      have hscore : calculate_score (playColorState g card cc)
                          (playColorState g card cc).current_index = specScore g g.current_index := by
                        unfold calculate_score specScore
                        simp only [playColorState_players, playColorState_current]
                        apply foldl_add_congr
                        intro j hj
                        have hjne : j ≠ g.current_index := by
                          simp only [List.mem_filter, decide_eq_true_eq] at hj
                          exact hj.2
                        have hhj : (playColorState g card cc).hands.getD j [] =
                            g.hands.getD j [] := by
                          simp only [playColorState_hands, playCommitState_hands]
                          exact getD_modifyIdx_ne g.hands g.current_index j _ [] hjne
                        rw [hhj]
                        congr 1
                        apply List.map_congr_left
                        intro c hcmem
                        unfold cardPoints specCardPoints
                        match hcv : c.value with
                        | Value.num n => rfl
                        | Value.drawTwo => rfl
                        | Value.reverse => rfl
                        | Value.skip => rfl
                        | Value.drawFour =>
                          have := hwf j c hcmem (Or.inl hcv)
                          simp [Card.is_black, this]
                        | Value.wild =>
                          have := hwf j c hcmem (Or.inr hcv)
                          simp [Card.is_black, this]
                      refine ⟨by rw [← hres', hscore], by simp, by simp, by simp, by simp, by simp⟩
          · exact absurd h (by simp)


/-- The game built from the unshuffled standard deck with hand size 1:
seat 0 holds exactly the red 0, the opener is the deck's last wild with
chosen start color red, so seat 0 can win by playing its only card. -/
def w1Game : GameState :=
  (mkGame standardDeck ["player-a", "player-b"] 1 Color.red idShuffle 1).getD emptyGame

lemma w1Game_mk :
    mkGame standardDeck ["player-a", "player-b"] 1 Color.red idShuffle 1 = some w1Game :=
  rfl

lemma w1Game_reachable : Reachable w1Game :=
  Reachable.init standardDeck ["player-a", "player-b"] 1 Color.red idShuffle 1 w1Game
    (List.Perm.refl _) idShuffle_perm (by decide) w1Game_mk

def w1Post : GameState × PlayRes :=
  (play idShuffle w1Game "player-a" ⟨Color.red, Value.num 0⟩ none true).getD
    (emptyGame, PlayRes.success)

theorem C4_winning_play_witness :
    w1Post.2 = PlayRes.gameOver GameOverReason.WON "player-a"
      (specScore w1Game w1Game.current_index) ∧
    w1Post.1.current_index = w1Game.current_index ∧
    w1Post.1.direction = w1Game.direction ∧
    w1Post.1.pending_draw_count = w1Game.pending_draw_count ∧
    w1Post.1.pending_draw_for_index = w1Game.pending_draw_for_index ∧
    w1Post.1.remaining_cards = w1Game.remaining_cards :=
  C4_winning_play idShuffle w1Game "player-a" ⟨Color.red, Value.num 0⟩ none true
    w1Post.1 w1Post.2 rfl (fun m hm => PlayRes.noConfusion hm) (by decide) w1Game_reachable
